import Mathlib

/-! Directive/pragma support (`tools/flang2/flang2exe/direct.c`)

A shallow embedding of the directive state engine of `direct.c`: the
directive sets (`DIRSET`), the loop-record table and loop stack of `DIRECT`,
the `-xf`/`-yf` override lists, and the textual reader `direct_import` /
`rd_dir`, followed by theorems about them.

C `int` values are Lean `Int`s.  The bitwise operators `&`, `|`, `~` act on
the 32-bit two's complement pattern of their operands (`toU32` / `ofU32`).
Storage reached through a pointer is a `List`; an access outside the list is
the C program's undefined behaviour and is the `none` result of the
operation that performs it.
-/

set_option maxRecDepth 8000

namespace Direct

/-! ## 32-bit integers -/

/-- The unsigned 32-bit pattern of a C `int`. -/
def toU32 (i : Int) : Nat := (i % 4294967296).toNat

/-- The C `int` whose two's complement pattern is `n` (`n < 2^32`). -/
def ofU32 (n : Nat) : Int := if n < 2147483648 then (n : Int) else (n : Int) - 4294967296

/-- Range of a C `int`. -/
def isInt32 (i : Int) : Prop := -2147483648 ≤ i ∧ i < 2147483648

instance (i : Int) : Decidable (isInt32 i) := by unfold isInt32; infer_instance

/-- C `a & b` on `int`. -/
def band (a b : Int) : Int := ofU32 (toU32 a &&& toU32 b)

/-- C `a | b` on `int`. -/
def bor (a b : Int) : Int := ofU32 (toU32 a ||| toU32 b)

/-- C `~a` on `int`. -/
def bnot (a : Int) : Int := ofU32 (toU32 a ^^^ 4294967295)

/-! ## The store macros of `rd_dir` -/

/-- The macro `#define ST_VAL(m) if (change) dd->m = v`: the new value of the field
whose prior value is `old`. -/
def ST_VAL (change v old : Int) : Int :=
  if change ≠ 0 then v else old

/-- The macro `#define ST_BV(m) if (change) dd->m = (v & change) | (dd->m & ~change)`:
the new value of the field whose prior value is `old`. -/
def ST_BV (change v old : Int) : Int :=
  if change ≠ 0 then bor (band v change) (band old (bnot change)) else old

/-- The value an `int` object holds after a conversion stored the
mathematical value `i` in it: its low 32 bits, read as two's complement. -/
def wrap32 (i : Int) : Int := ofU32 (toU32 i)

/-! ## The C library: `sscanf` and `fgets`

`sscanf` is modelled for the conversions and directives that occur in the
formats of `direct.c` (`%d`, `%x`, white space, ordinary characters), after
ISO C 7.21.6.2.  The result is the list of the values assigned, in order: the
C return value is its length, except that C returns `EOF` (-1) instead of 0
when the input ends before the first conversion; the callers only compare the
return value with the positive number of conversions of the format. -/

/-- C `isspace` in the "C" locale. -/
def isspace (c : Char) : Bool :=
  c.toNat = 32 || (9 ≤ c.toNat && c.toNat ≤ 13)

/-- Value of `c` as a digit of the given base, if it is one. -/
def digit_val (base : Nat) (c : Char) : Option Nat :=
  let n := c.toNat
  let v : Nat :=
    if 48 ≤ n ∧ n ≤ 57 then n - 48
    else if 97 ≤ n ∧ n ≤ 102 then n - 87
    else if 65 ≤ n ∧ n ≤ 70 then n - 55
    else base
  if v < base then some v else none

/-- Consume the longest run of digits, accumulating the value. -/
def scan_digits (base : Nat) : Nat → List Char → Nat × List Char
  | acc, [] => (acc, [])
  | acc, c :: s =>
    match digit_val base c with
    | some d => scan_digits base (acc * base + d) s
    | none => (acc, c :: s)

/-- After white space and sign: the digits of a `%d` (base 10) or `%x`
(base 16, with an optional `0x`/`0X`) item.  An item without a digit is a
matching failure. -/
def scan_magnitude (base : Nat) (s : List Char) : Option (Nat × List Char) :=
  let s :=
    match s with
    | c0 :: c1 :: t =>
      if base = 16 ∧ c0 = '0' ∧ (c1 = 'x' ∨ c1 = 'X') then t else s
    | _ => s
  match s with
  | [] => none
  | c :: _ =>
    match digit_val base c with
    | some _ => some (scan_digits base 0 s)
    | none => none

/-- One `%d` (`base = 10`) or `%x` (`base = 16`) conversion: skip white
space, read an optionally signed integer, and give the `int` stored together
with the rest of the input. -/
def scan_int (base : Nat) (s : List Char) : Option (Int × List Char) :=
  let s := s.dropWhile isspace
  let (neg, s) :=
    match s with
    | c :: t => if c = '-' then (true, t) else if c = '+' then (false, t) else (false, s)
    | [] => (false, s)
  match scan_magnitude base s with
  | some (n, rest) => some (wrap32 (if neg then -(n : Int) else (n : Int)), rest)
  | none => none

/-- A directive of a `scanf` format. -/
inductive Directive where
  | lit (c : Char)
  | ws
  | conv_d
  | conv_x
  deriving DecidableEq, Repr

/-- Split a format string into its directives; `pct` tells that the previous
character was the `%` that introduces a conversion.  Only `%d` and `%x`
occur in the formats of `direct.c`. -/
def parse_format : Bool → List Char → List Directive
  | _, [] => []
  | true, c :: f =>
    (if c = 'd' then Directive.conv_d else if c = 'x' then Directive.conv_x
      else Directive.lit c) :: parse_format false f
  | false, c :: f =>
    if c = '%' then parse_format true f
    else (if isspace c then Directive.ws else Directive.lit c) :: parse_format false f

/-- Execute the directives of a format on the input; the values assigned. -/
def scanf_run : List Directive → List Char → List Int
  | [], _ => []
  | Directive.lit c :: f, s =>
    match s with
    | c1 :: t => if c1 = c then scanf_run f t else []
    | [] => []
  | Directive.ws :: f, s => scanf_run f (s.dropWhile isspace)
  | Directive.conv_d :: f, s =>
    match scan_int 10 s with
    | some (v, t) => v :: scanf_run f t
    | none => []
  | Directive.conv_x :: f, s =>
    match scan_int 16 s with
    | some (v, t) => v :: scanf_run f t
    | none => []

/-- The C string held in a buffer: the characters before the first NUL. -/
def cstr (buf : List Char) : List Char := buf.takeWhile (fun c => c.toNat ≠ 0)

/-- The call `sscanf(line, format, ...)`: the values assigned to the arguments. -/
def sscanf (line : List Char) (format : String) : List Int :=
  scanf_run (parse_format false format.toList) (cstr line)

/-- A stream open for reading, given by the results of the successive
`fgets(line, MAXLINELEN - 1, dirfil)` calls that are still to come. -/
abbrev FILE := List (List Char)

/-- The macro `#define MAXLINELEN 4096`. -/
def MAXLINELEN : Nat := 4096

/-- Cut a text into the pieces successive `fgets(buf, size, f)` calls return:
each piece ends after a newline, after `size - 1` characters, or at the end
of the text.  `room` is what is left of `size - 1` for the current piece. -/
def fgets_pieces (size : Nat) : Nat → List Char → List Char → FILE
  | _, acc, [] => if acc.isEmpty then [] else [acc.reverse]
  | room, acc, c :: s =>
    if c = '\n' ∨ room ≤ 1 then (c :: acc).reverse :: fgets_pieces size (size - 1) [] s
    else fgets_pieces size (room - 1) (c :: acc) s

/-- The stream `dirfil` over a text, as `read_line` reads it. -/
def fopen (text : String) : FILE :=
  fgets_pieces (MAXLINELEN - 1) (MAXLINELEN - 2) [] text.toList

/-! ## Data model (`direct.h`, `global.h`) -/

/-- Modelled from the spec: the type `DIRSET` of `direct.h`, which is not
part of the sources at hand.  One complete set of switches: optimization
level, vectorization mask, dependence-check flag, the target-version
selectors (`TPNVERSION` of them) and the bank of generic switches. -/
structure DIRSET where
  opt : Int
  vect : Int
  depchk : Int
  tpvalue : List Int
  x : List Int
  deriving DecidableEq, Repr

/-- Modelled from the spec: the type `LPPRG` of `direct.h` (a loop record:
line range and directive set). -/
structure LPPRG where
  beg_line : Int
  end_line : Int
  dirset : DIRSET
  deriving DecidableEq, Repr

/-- Modelled from the spec: the type `LPG_STK` of `direct.h` (a loop-stack
entry: the index of a loop record). -/
structure LPG_STK where
  dirx : Int
  deriving DecidableEq, Repr

/-- The member `direct.lpg`: the loop-record table.  `stgb` is `none` for a
null pointer. -/
structure LPG where
  stgb : Option (List LPPRG)
  size : Int
  avail : Int
  deriving DecidableEq, Repr

/-- The member `direct.lpg_stk`: the loop stack. -/
structure LPGSTK where
  stgb : Option (List LPG_STK)
  size : Int
  top : Int
  deriving DecidableEq, Repr

/-- Modelled from the spec: the type `DIRECT` of `direct.h`, the value of the
global `direct`. -/
structure DIRECT where
  gbl : DIRSET
  rou : DIRSET
  loop : DIRSET
  rou_begin : DIRSET
  loop_flag : Bool
  in_loop : Bool
  carry_fwd : Bool
  avail : Int
  size : Int
  stgb : Option (List DIRSET)
  lpg : LPG
  lpg_stk : LPGSTK
  deriving DecidableEq, Repr

/-- The members of the external switch bank `flg` (`global.h`) that
`direct.c` reads and writes. -/
structure FLG where
  opt : Int
  vect : Int
  depchk : Int
  tpvalue : List Int
  x : List Int
  deriving DecidableEq, Repr

/-- An override record `XF` of `direct.c` (`next` is the rest of the list). -/
structure XF where
  fn : String
  x : Int
  v : Int
  deriving DecidableEq, Repr

/-- What `direct.c` takes from outside the sources at hand: the predicate
`is_xflag_bit`, the macro `XBIT` (a value computed from the switch bank), the
switch setters `set_xflag` and `set_yflag`, `set_mach` (the machine
descriptor is kept as an `Int`), and the contents of storage that a
reallocation adds to the loop-record table. -/
structure Ext where
  is_xflag_bit : Int → Bool
  XBIT : FLG → Int → Int → Int
  set_xflag : FLG → Int → Int → FLG
  set_yflag : FLG → Int → Int → FLG
  set_mach : Int → Int → Int
  fresh : Nat → LPPRG

/-- The read `l[i]` for a C index: `none` outside the storage. -/
def get_at {α : Type} (l : List α) (i : Int) : Option α :=
  if 0 ≤ i then l.get? i.toNat else none

/-- The store `l[i] = a` for a C index: `none` outside the storage. -/
def set_at {α : Type} (l : List α) (i : Int) (a : α) : Option (List α) :=
  if 0 ≤ i ∧ i.toNat < l.length then some (l.set i.toNat a) else none

/-- The read `p[i]` through a pointer that may be null. -/
def load {α : Type} (p : Option (List α)) (i : Int) : Option α :=
  match p with
  | some l => get_at l i
  | none => none

/-- The store `p[i] = a` through a pointer that may be null. -/
def store {α : Type} (p : Option (List α)) (i : Int) (a : α) : Option (List α) :=
  match p with
  | some l => set_at l i a
  | none => none

/-! ## `rd_dir` -/

/-- How one pass through the body of the `while (TRUE)` loop of `rd_dir`
ends once a line was read: with `return r`, with `break` out of the `switch`
(the loop goes on with the directive set as updated), or with a store outside
`dd->x`. -/
inductive Flow where
  | ret (r : Int)
  | brk (dd : DIRSET)
  | undef
  deriving DecidableEq, Repr

/-- The stores `ST_VAL(x[idx])` (`new` ignores the prior value) and `ST_BV(x[idx])`:
nothing is touched when `change` is 0. -/
def store_x (dd : DIRSET) (idx change : Int) (new : Int → Int) : Flow :=
  if change ≠ 0 then
    match get_at dd.x idx with
    | some old => Flow.brk { dd with x := dd.x.set idx.toNat (new old) }
    | none => Flow.undef
  else Flow.brk dd

/-- The character `line[0]`. -/
def line0 (line : List Char) : Char := line.headD (Char.ofNat 0)

/-- The `switch (line[0])` of `rd_dir`; `is_rou_begin` is
`dd == &direct.rou_begin`. -/
def rd_dir_switch (E : Ext) (is_rou_begin : Bool) (dd : DIRSET) (line : List Char) : Flow :=
  if line0 line = 'z' then Flow.ret 0
  else if line0 line = 'o' then
    match sscanf line "o:%x %x" with
    | [change, v] => Flow.brk { dd with opt := ST_VAL change v dd.opt }
    | _ => Flow.ret 1
  else if line0 line = 'v' then
    match sscanf line "v:%x %x" with
    | [change, v] =>
      if !is_rou_begin then Flow.brk { dd with vect := ST_BV change v dd.vect }
      else Flow.brk { dd with vect := ST_VAL change v dd.vect }
    | _ => Flow.ret 1
  else if line0 line = 'd' then
    match sscanf line "d:%x %x" with
    | [change, v] => Flow.brk { dd with depchk := ST_VAL change v dd.depchk }
    | _ => Flow.ret 1
  else if line0 line = 'x' then
    match sscanf line "x%d:%x %x" with
    | [idx, change, v] =>
      if is_rou_begin then store_x dd idx change (ST_VAL change v)
      else if E.is_xflag_bit idx then store_x dd idx change (ST_BV change v)
      else store_x dd idx change (ST_VAL change v)
    | _ => Flow.ret 1
  else Flow.ret 1

/-- The outcome of a call of `rd_dir`: the value returned, the directive set
`*dd` as left, and the statics `ilmlinenum` and `dirfil`. -/
structure RdDir where
  ret : Int
  dd : DIRSET
  ilmlinenum : Int
  dirfil : FILE
  deriving DecidableEq, Repr

/-- The function `rd_dir(dd)`, run with the statics `ilmlinenum` and `dirfil`.  Each pass
starts with `read_line()`: `fgets` gives the next line or fails at the end of
the stream, and `ilmlinenum` is incremented either way.  `none`: a store
outside `dd->x`. -/
def rd_dir (E : Ext) (is_rou_begin : Bool) : DIRSET → Int → FILE → Option RdDir
  | dd, ilmlinenum, [] => some ⟨1, dd, ilmlinenum + 1, []⟩
  | dd, ilmlinenum, line :: dirfil =>
    match rd_dir_switch E is_rou_begin dd line with
    | Flow.ret r => some ⟨r, dd, ilmlinenum + 1, dirfil⟩
    | Flow.brk dd1 => rd_dir E is_rou_begin dd1 (ilmlinenum + 1) dirfil
    | Flow.undef => none

/-! ## `direct_import` -/

/-- The function `read_line()`: the line `fgets` stored (`none` when `fgets` gave `NULL`
and `read_line` returns 1), and the statics `ilmlinenum`, incremented in both
cases, and `dirfil`. -/
def read_line (ilmlinenum : Int) (dirfil : FILE) : Option (List Char) × Int × FILE :=
  match dirfil with
  | [] => (none, ilmlinenum + 1, [])
  | line :: rest => (some line, ilmlinenum + 1, rest)

/-- Modelled from the spec: the macro `NEEDB(n, p, dt, size, newsize)` of
`gbldefs.h`, for the loop-record table: when `n > size` the storage is
reallocated to `newsize` records, "preserving existing contents", and `size`
becomes `newsize`.  The added records hold what `fresh` says. -/
def NEEDB (fresh : Nat → LPPRG) (n : Int) (lpg : LPG) (newsize : Int) : LPG :=
  if n > lpg.size then
    { lpg with
      stgb := some ((List.range newsize.toNat).map
        (fun j => ((lpg.stgb.getD []).get? j).getD (fresh j)))
      size := newsize }
  else lpg

/-- The outcome of `direct_import`: the value returned (`ilmlinenum`),
whether `"DIRECTIVES error"` was printed (the path through `err:`), the
global `direct`, and what is left of the stream. -/
structure Import where
  ret : Int
  err : Bool
  direct : DIRECT
  dirfil : FILE
  deriving DecidableEq, Repr

/-- The stores of `sscanf(line, "b:%d e:%d", &lpprg->beg_line,
&lpprg->end_line)`, given the values it converted. -/
def assign_b_e (vals : List Int) (lp : LPPRG) : LPPRG :=
  match vals with
  | [] => lp
  | [b] => { lp with beg_line := b }
  | b :: e :: _ => { lp with beg_line := b, end_line := e }

/-- The loop `for (i = 1; i < direct.lpg.avail; i++)` of `direct_import`,
with `k` passes left, and the `return` or `err:` that follows. -/
def import_loop (E : Ext) : Nat → Int → DIRECT → Int → FILE → Option Import
  | 0, _, direct, ilmlinenum, dirfil => some ⟨ilmlinenum, false, direct, dirfil⟩
  | k + 1, i, direct, ilmlinenum, dirfil =>
    match read_line ilmlinenum dirfil with
    | (none, n1, f1) => some ⟨n1, true, direct, f1⟩
    | (some line, n1, f1) =>
      match sscanf line "%d: " with
      | [idx] =>
        if i ≠ idx then some ⟨n1, true, direct, f1⟩
        else
          match read_line n1 f1 with
          | (none, n2, f2) => some ⟨n2, true, direct, f2⟩
          | (some line2, n2, f2) =>
            let vals := sscanf line2 "b:%d e:%d"
            if vals = [] then some ⟨n2, true, direct, f2⟩
            else
              match load direct.lpg.stgb i with
              | none => none
              | some lp =>
                let lp1 := assign_b_e vals lp
                if vals.length ≠ 2 then
                  match store direct.lpg.stgb i lp1 with
                  | none => none
                  | some t =>
                    some ⟨n2, true, { direct with lpg := { direct.lpg with stgb := some t } }, f2⟩
                else
                  let lp2 := { lp1 with dirset := direct.rou_begin }
                  match rd_dir E false lp2.dirset n2 f2 with
                  | none => none
                  | some r =>
                    match store direct.lpg.stgb i { lp2 with dirset := r.dd } with
                    | none => none
                    | some t =>
                      let direct1 := { direct with lpg := { direct.lpg with stgb := some t } }
                      if r.ret ≠ 0 then some ⟨r.ilmlinenum, true, direct1, r.dirfil⟩
                      else import_loop E k (i + 1) direct1 r.ilmlinenum r.dirfil
      | _ => some ⟨n1, true, direct, f1⟩

/-- The function `direct_import(ff)`.  `none`: an access outside the storage of the
loop-record table or of a switch bank, or the overflow of
`direct.lpg.avail + 8`. -/
def direct_import (E : Ext) (direct : DIRECT) (ff : FILE) : Option Import :=
  match read_line 0 ff with
  | (none, n1, f1) => some ⟨n1, true, direct, f1⟩
  | (some line, n1, f1) =>
    match sscanf line "A:%d" with
    | [avail] =>
      if avail > direct.lpg.size ∧ avail + 8 > 2147483647 then none
      else
        let direct1 :=
          { direct with lpg := NEEDB E.fresh avail { direct.lpg with avail := avail } (avail + 8) }
        match read_line n1 f1 with
        | (none, n2, f2) => some ⟨n2, true, direct1, f2⟩
        | (some line2, n2, f2) =>
          if line0 line2 ≠ 'r' then some ⟨n2, true, direct1, f2⟩
          else
            let direct1b := { direct1 with rou_begin := direct1.gbl }
            match rd_dir E true direct1b.rou_begin n2 f2 with
            | none => none
            | some r =>
              let direct2 := { direct1b with rou_begin := r.dd }
              if r.ret ≠ 0 then some ⟨r.ilmlinenum, true, direct2, r.dirfil⟩
              else import_loop E (direct2.lpg.avail - 1).toNat 1 direct2 r.ilmlinenum r.dirfil
    | _ => some ⟨n1, true, direct, f1⟩

/-! ## Scope transitions -/

/-- The function `direct_rou_end()`. -/
def direct_rou_end (direct : DIRECT) : DIRECT :=
  { direct with
    lpg := { direct.lpg with avail := 1 }
    rou := direct.gbl
    loop := direct.gbl
    rou_begin := direct.gbl
    carry_fwd := false }

/-- The expression
`direct.lpg.stgb[direct.lpg_stk.stgb[direct.lpg_stk.top].dirx].dirset`. -/
def top_dirset (direct : DIRECT) : Option DIRSET :=
  match load direct.lpg_stk.stgb direct.lpg_stk.top with
  | none => none
  | some ent =>
    match load direct.lpg.stgb ent.dirx with
    | none => none
    | some lpprg => some lpprg.dirset

/-- The function `direct_loop_end(beg_line, end_line)`; `flg` is read by `XBIT`.  `none`:
an access outside the loop stack or the loop-record table. -/
def direct_loop_end (E : Ext) (flg : FLG) (direct : DIRECT) (beg_line end_line : Int) :
    Option DIRECT :=
  if !direct.in_loop then some direct
  else
    match load direct.lpg_stk.stgb direct.lpg_stk.top with
    | none => none
    | some ent =>
      let i := ent.dirx
      match load direct.lpg.stgb i with
      | none => none
      | some lpprg =>
        if lpprg.beg_line ≠ beg_line then some direct
        else
          let top := direct.lpg_stk.top - 1
          match store direct.lpg.stgb i { lpprg with end_line := end_line } with
          | none => none
          | some tbl =>
            let direct1 :=
              { direct with
                lpg_stk := { direct.lpg_stk with top := top }
                lpg := { direct.lpg with stgb := some tbl }
                loop := direct.rou }
            if top = 0 then some { direct1 with loop_flag := false, in_loop := false }
            else if E.XBIT flg 59 1 ≠ 0 then
              match top_dirset direct1 with
              | none => none
              | some ds => some { direct1 with loop := ds }
            else
              match top_dirset direct1 with
              | none => none
              | some ds => some { direct1 with loop := { direct1.loop with depchk := ds.depchk } }

/-! ## Per-function overrides and `direct_rou_load` -/

/-- The function `direct_xf(fn, x, v)`: the new value of the list `xf_p`. -/
def direct_xf (xf_p : List XF) (fn : String) (x v : Int) : List XF :=
  { fn := fn, x := x, v := v } :: xf_p

/-- The function `direct_yf(fn, x, v)`: the new value of the list `yf_p`. -/
def direct_yf (yf_p : List XF) (fn : String) (x v : Int) : List XF :=
  { fn := fn, x := x, v := v } :: yf_p

/-- The function `load_dirset(currdir)`: the new value of `flg`. -/
def load_dirset (flg : FLG) (currdir : DIRSET) : FLG :=
  { flg with
    depchk := currdir.depchk
    opt := currdir.opt
    vect := currdir.vect
    tpvalue := currdir.tpvalue
    x := currdir.x }

/-- The function `store_dirset(currdir)`: the new value of `*currdir`. -/
def store_dirset (flg : FLG) (currdir : DIRSET) : DIRSET :=
  { currdir with
    depchk := flg.depchk
    opt := flg.opt
    vect := flg.vect
    tpvalue := flg.tpvalue
    x := flg.x }

/-- The members of `gbl` (`global.h`) that `direct_rou_load` reads;
`currsub` stands for `SYMNAME(gbl.currsub)`. -/
structure GBL where
  currsub : String
  asgnlbls : Int
  vfrets : Int
  multiversion : Int
  deriving DecidableEq, Repr

/-- A call `error(ecode, sev, lineno, op1, op2)`. -/
structure ErrCall where
  ecode : Int
  sev : Int
  lineno : Int
  op1 : String
  op2 : String
  deriving DecidableEq, Repr

/-- The globals `direct_rou_load` works on. -/
structure Globals where
  flg : FLG
  direct : DIRECT
  xf_p : List XF
  yf_p : List XF
  mach : Int
  errors : List ErrCall

/-- The loops `for (xfp = xf_p; xfp != NULL; xfp = xfp->next)` of
`direct_rou_load`, over `xf_p` with `set_xflag` and over `yf_p` with
`set_yflag`: the new `flg` and `*currdir`.  `none`: an access outside
`flg.x` or `currdir->x`. -/
def apply_xf (set_flag : FLG → Int → Int → FLG) (fnp : String) :
    List XF → FLG → DIRSET → Option (FLG × DIRSET)
  | [], flg, currdir => some (flg, currdir)
  | xfp :: next, flg, currdir =>
    if xfp.fn = fnp then
      let flg1 := set_flag flg xfp.x xfp.v
      match get_at flg1.x xfp.x with
      | none => none
      | some w =>
        match set_at currdir.x xfp.x w with
        | none => none
        | some x1 => apply_xf set_flag fnp next flg1 { currdir with x := x1 }
    else apply_xf set_flag fnp next flg currdir

/-- The function `direct_rou_load(func)`.  `none`: an access outside a switch bank or
outside `tpvalue`. -/
def direct_rou_load (E : Ext) (gbl : GBL) (g : Globals) : Option Globals :=
  let flg0 := load_dirset g.flg g.direct.rou_begin
  match apply_xf E.set_xflag gbl.currsub g.xf_p flg0 g.direct.rou_begin with
  | none => none
  | some (flg1, cur1) =>
    match apply_xf E.set_yflag gbl.currsub g.yf_p flg1 cur1 with
    | none => none
    | some (flg2, cur2) =>
      let down1 : Bool := gbl.asgnlbls = -1 ∧ flg2.opt ≥ 2
      let errors1 :=
        if down1 then g.errors ++ [⟨127, 1, 0, gbl.currsub, "due to assigned goto"⟩]
        else g.errors
      let flg3 := if down1 then { flg2 with opt := 1, vect := 0 } else flg2
      let cur3 := if down1 then { cur2 with opt := 1, vect := 0 } else cur2
      let down2 : Bool := gbl.vfrets ≠ 0 ∧ flg3.opt ≥ 2
      let errors2 :=
        if down2 then errors1 ++ [⟨127, 1, 0, gbl.currsub, "due to < > in FORMAT"⟩]
        else errors1
      let flg4 := if down2 then { flg3 with opt := 1, vect := 0 } else flg3
      let cur4 := if down2 then { cur3 with opt := 1, vect := 0 } else cur3
      match (if gbl.vfrets ≠ 0 then
          (match get_at flg4.x 8 with
            | none => none
            | some w => some { flg4 with x := flg4.x.set 8 (bor w 8) })
        else some flg4) with
      | none => none
      | some flg5 =>
        match get_at cur4.tpvalue (if gbl.multiversion = 0 then 0 else gbl.multiversion - 1) with
        | none => none
        | some tp =>
          some
            { g with
              flg := flg5
              direct := { g.direct with rou_begin := cur4 }
              mach := E.set_mach g.mach tp
              errors := errors2 }

/-- What is asked of `set_xflag` and `set_yflag` where a claim needs it:
a call for switch `x` leaves every other switch of the bank, and the size of
the bank, as they were. -/
def keeps_other_switches (set_flag : FLG → Int → Int → FLG) : Prop :=
  ∀ (flg : FLG) (x v : Int),
    (set_flag flg x v).x.length = flg.x.length ∧
    ∀ j : Nat, (j : Int) ≠ x → (set_flag flg x v).x.get? j = flg.x.get? j

/-! ## `direct_init` and `direct_fini` -/

/-- Modelled from the spec: the macro `NEW(p, dt, n)` of `gbldefs.h`
("allocate the Growable Table ... (initial capacity 16)"): storage for `n`
records; what they hold at first is what `junk` says. -/
def NEW {α : Type} (junk : Nat → α) (n : Nat) : List α :=
  (List.range n).map junk

/-- The loop record `BZERO(direct.lpg.stgb, LPPRG, 1)` leaves in slot 0: all
members 0, for `tpn` target-version selectors and `nx` switches. -/
def zero_lpprg (tpn nx : Nat) : LPPRG :=
  { beg_line := 0, end_line := 0,
    dirset := { opt := 0, vect := 0, depchk := 0, tpvalue := List.replicate tpn 0,
                x := List.replicate nx 0 } }

/-- The function `direct_init()`: the new `flg` and `direct`.  The arrays of
a directive set have the bounds of those of `flg`; `junk_d` and `junk_s`
give the first contents of the storage of `direct.stgb` and of the loop
stack, `E.fresh` that of the loop-record table.  `none`: `flg.x` has no
switch 8. -/
def direct_init (E : Ext) (junk_d : Nat → DIRSET) (junk_s : Nat → LPG_STK) (flg : FLG)
    (direct : DIRECT) : Option (FLG × DIRECT) :=
  match get_at flg.x 8 with
  | none => none
  | some w =>
    let flg1 := { flg with x := flg.x.set 8 (bor w 8) }
    let gbl := store_dirset flg1 direct.gbl
    some (flg1,
      { gbl := gbl
        rou := gbl
        loop := gbl
        rou_begin := gbl
        loop_flag := false
        in_loop := false
        carry_fwd := false
        avail := 0
        size := 16
        stgb := some (NEW junk_d 16)
        lpg :=
          { avail := 1
            size := 16
            stgb := some ((NEW E.fresh 16).set 0 (zero_lpprg flg.tpvalue.length flg.x.length)) }
        lpg_stk := { top := 0, size := 8, stgb := some (NEW junk_s 8) } })

/-- The three growable stores of `direct`. -/
inductive Storage where
  | stgb
  | lpg
  | lpg_stk
  deriving DecidableEq, Repr

/-- The function `direct_fini()`: the new `direct`, and the stores it
released, in order.  Modelled from the spec: the macro `FREE(p)` of
`gbldefs.h` releases the storage and leaves `p` null (`teardown` is a
"no-op if already released"). -/
def direct_fini (direct : DIRECT) : DIRECT × List Storage :=
  let r1 : DIRECT × List Storage :=
    if direct.stgb.isSome then
      ({ direct with stgb := none, avail := 0, size := 0 }, [Storage.stgb])
    else (direct, [])
  let r2 : DIRECT × List Storage :=
    if r1.1.lpg.stgb.isSome then
      ({ r1.1 with lpg := { stgb := none, avail := 0, size := 0 } }, r1.2 ++ [Storage.lpg])
    else r1
  if r2.1.lpg_stk.stgb.isSome then
    ({ r2.1 with lpg_stk := { stgb := none, top := 0, size := 0 } }, r2.2 ++ [Storage.lpg_stk])
  else r2

/-! ## Loop-stack references -/

/-- The loop-stack entry at position `p` exists and references a loop
record index `i` with `1 <= i < direct.lpg.avail`. -/
def entry_valid (direct : DIRECT) (p : Int) : Bool :=
  match load direct.lpg_stk.stgb p with
  | some ent => decide (1 ≤ ent.dirx ∧ ent.dirx < direct.lpg.avail)
  | none => false

/-- Loop-stack reference validity: `in_loop` implies `top >= 1`, and every
entry at the positions `1..top` is valid. -/
def stack_valid (direct : DIRECT) : Prop :=
  (direct.in_loop = true → 1 ≤ direct.lpg_stk.top) ∧
  ∀ k : Nat, k < direct.lpg_stk.top.toNat → entry_valid direct (k + 1) = true

instance (direct : DIRECT) : Decidable (stack_valid direct) := by
  unfold stack_valid; infer_instance

/-! ## The action map (`lib/ArgParser/debug_action.c`) -/

/-- The type `action_t`, a pointer to a `void` function without arguments:
the function it points to is known by a number. -/
abbrev action_t := Nat

/-- The type `action_list_t`: the array `actions` with `count` elements. -/
abbrev action_list_t := List action_t

/-- Modelled from the spec: the hash map `hashmap_t` of the library (absent
from the sources at hand), keyed by strings, "from string keys to ordered
lists of zero-argument callbacks": the list a key maps to, if any. -/
abbrev hashmap_t := String → Option action_list_t

/-- Modelled from the spec: `hashmap_lookup(map, key, &data)`: the data
stored for the key, or `none` when the call returns 0. -/
def hashmap_lookup (h : hashmap_t) (key : String) : Option action_list_t := h key

/-- Modelled from the spec: `hashmap_insert(map, key, data)`; also used for
a list that is changed in place through the pointer the map holds. -/
def hashmap_insert (h : hashmap_t) (key : String) (data : action_list_t) : hashmap_t :=
  fun k => if k = key then some data else h k

/-- The type `struct action_map_`. -/
structure action_map_t where
  actions : hashmap_t

/-- The function `create_action_map(&map)`: the new map. -/
def create_action_map : action_map_t := ⟨fun _ => none⟩

/-- The function `add_action(map, keyword, action)`: the map afterwards. -/
def add_action (map : action_map_t) (keyword : String) (action : action_t) : action_map_t :=
  match hashmap_lookup map.actions keyword with
  | some action_list =>
    { map with actions := hashmap_insert map.actions keyword (action_list ++ [action]) }
  | none => { map with actions := hashmap_insert map.actions keyword [action] }

/-- The function `execute_actions_for_keyword(map, keyword)`: the functions
called, in the order of the calls `action_list->actions[index]()` for
`index` from 0 to `count - 1`.  The functions called are taken not to change
the map. -/
def execute_actions_for_keyword (map : action_map_t) (keyword : String) : List action_t :=
  match hashmap_lookup map.actions keyword with
  | some action_list => (List.range action_list.length).filterMap (fun index => action_list.get? index)
  | none => []

/-- The sizes in bytes that the target gives to `action_map_t` (a structure
holding one `hashmap_t`) and to `action_list_t` (a structure holding a
pointer and a `size_t`). -/
structure Sizes where
  sizeof_action_map_t : Nat
  sizeof_action_list_t : Nat
  deriving DecidableEq, Repr

/-- The function `copy_action(from, keyword_from, to, keyword_to)`, for two
maps that are different objects (`from_map`, `to_map`): both maps
afterwards.  `count` elements are copied by `memcpy`.  For a keyword that
`to` does not have, the new record is allocated by
`malloc(sizeof(action_map_t))` and then written as an `action_list_t`
(`count`, `actions`).  `none`: that write goes beyond the storage
allocated. -/
def copy_action (sz : Sizes) (from_map : action_map_t) (keyword_from : String)
    (to_map : action_map_t) (keyword_to : String) : Option (action_map_t × action_map_t) :=
  match hashmap_lookup from_map.actions keyword_from with
  | none => some (from_map, to_map)
  | some source_actions =>
    let count := source_actions.length
    match hashmap_lookup to_map.actions keyword_to with
    | some _ =>
      some (from_map, { to_map with
        actions := hashmap_insert to_map.actions keyword_to (source_actions.take count) })
    | none =>
      if sz.sizeof_action_map_t < sz.sizeof_action_list_t then none
      else
        some (from_map, { to_map with
          actions := hashmap_insert to_map.actions keyword_to (source_actions.take count) })

/-! ## Well-formed streams

The grammar of the stream `direct_import` reads, stated on the lines
themselves: what a directive line, a directive block and a loop block are,
and what applying directive lines in order to a directive set gives. -/

/-- A directive line for a bank of `nx` switches: it starts with `o`, `v`,
`d` or `x`, its fields convert in full, and an `x` line with a non-zero mask
names a switch of the bank. -/
def directive_line (nx : Nat) (line : List Char) : Bool :=
  if line0 line = 'o' then
    match sscanf line "o:%x %x" with
    | [_, _] => true
    | _ => false
  else if line0 line = 'v' then
    match sscanf line "v:%x %x" with
    | [_, _] => true
    | _ => false
  else if line0 line = 'd' then
    match sscanf line "d:%x %x" with
    | [_, _] => true
    | _ => false
  else if line0 line = 'x' then
    match sscanf line "x%d:%x %x" with
    | [idx, change, _] => decide (change = 0 ∨ (0 ≤ idx ∧ idx < nx))
    | _ => false
  else false

/-- The directive set after one directive line was applied to it. -/
def apply_line (E : Ext) (is_rou_begin : Bool) (dd : DIRSET) (line : List Char) : DIRSET :=
  match rd_dir_switch E is_rou_begin dd line with
  | Flow.brk dd1 => dd1
  | _ => dd

/-- The directive set after directive lines were applied to it in order. -/
def apply_lines (E : Ext) (is_rou_begin : Bool) (dd : DIRSET) (lines : FILE) : DIRSET :=
  lines.foldl (apply_line E is_rou_begin) dd

/-- The lines of a loop block: the index line, the `b:`/`e:` line with the
two line numbers it carries, the directive lines, and the terminator. -/
structure Block where
  idx_line : List Char
  be_line : List Char
  b_val : Int
  e_val : Int
  lines : FILE
  z_line : List Char
  deriving DecidableEq, Repr

/-- The lines of a loop block, in stream order. -/
def Block.text (blk : Block) : FILE :=
  blk.idx_line :: blk.be_line :: (blk.lines ++ [blk.z_line])

/-- The lines of consecutive loop blocks, in stream order. -/
def blocks_text : List Block → FILE
  | [] => []
  | blk :: bs => blk.text ++ blocks_text bs

/-- The loop block is well formed at position `i`: its index line carries
`i`, its second line carries `b:` and `e:` values, its directive lines are
directive lines, and it ends with a `z` line. -/
def Block.wf (nx : Nat) (i : Int) (blk : Block) : Bool :=
  decide (sscanf blk.idx_line "%d: " = [i]) &&
  decide (sscanf blk.be_line "b:%d e:%d" = [blk.b_val, blk.e_val]) &&
  blk.lines.all (directive_line nx) &&
  decide (line0 blk.z_line = 'z')

/-- Consecutive loop blocks are well formed from position `i` on. -/
def blocks_wf (nx : Nat) : Int → List Block → Bool
  | _, [] => true
  | i, blk :: bs => blk.wf nx i && blocks_wf nx (i + 1) bs

/-- The loop record a well-formed block describes, for the baseline
`rou_begin`: its line numbers, and its directive lines applied in order to a
copy of the baseline. -/
def Block.record (E : Ext) (rou_begin : DIRSET) (blk : Block) : LPPRG :=
  { beg_line := blk.b_val, end_line := blk.e_val,
    dirset := apply_lines E false rou_begin blk.lines }

/-- The loop-record table with the records of consecutive blocks stored from
position `i` on. -/
def fill_records (E : Ext) (rou_begin : DIRSET) : Int → List Block → List LPPRG → List LPPRG
  | _, [], tbl => tbl
  | i, blk :: bs, tbl =>
    fill_records E rou_begin (i + 1) bs (tbl.set i.toNat (blk.record E rou_begin))

/-! ## Sample values, for evaluating the operations -/

/-- Modelled from the spec: `set_xflag` / `set_yflag` (absent from the
sources at hand) as the spec words them, "set the corresponding external
global switch": the switch takes the value. -/
def set_flag_overwrite (flg : FLG) (x v : Int) : FLG :=
  match set_at flg.x x v with
  | some l => { flg with x := l }
  | none => flg

/-- A directive set with a bank of 128 switches, all 0. -/
def dirset_sample : DIRSET :=
  { opt := 2, vect := 3, depchk := 1, tpvalue := [0], x := List.replicate 128 0 }

/-- An all-zero loop record. -/
def lpprg_zero : LPPRG :=
  { beg_line := 0, end_line := 0,
    dirset := { opt := 0, vect := 0, depchk := 0, tpvalue := [0], x := List.replicate 128 0 } }

/-- Externals to evaluate with: switch 9 is not a bit-vector switch, the
others are; `XBIT(n, m)` is `flg.x[n] & m`. -/
def ext_sample : Ext :=
  { is_xflag_bit := fun i => decide (i ≠ 9)
    XBIT := fun flg n m => band ((get_at flg.x n).getD 0) m
    set_xflag := set_flag_overwrite
    set_yflag := set_flag_overwrite
    set_mach := fun _ tp => tp
    fresh := fun _ => lpprg_zero }

/-- A switch bank to evaluate with: 128 switches, all 0, so that
`XBIT(59, 1)` of `ext_sample` is 0. -/
def flg_sample : FLG :=
  { opt := 2, vect := 3, depchk := 1, tpvalue := [0], x := List.replicate 128 0 }

/-- A state inside a routine with two nested tracked loops open: record 1
(from line 10) and, inside it, record 2 (from line 20). -/
def direct_nested : DIRECT :=
  { gbl := dirset_sample
    rou := dirset_sample
    loop := { dirset_sample with opt := 0, vect := 5 }
    rou_begin := dirset_sample
    loop_flag := true
    in_loop := true
    carry_fwd := false
    avail := 0
    size := 0
    stgb := some []
    lpg :=
      { stgb := some [lpprg_zero,
          { beg_line := 10, end_line := -1, dirset := { dirset_sample with opt := 1, depchk := 0 } },
          { beg_line := 20, end_line := -1, dirset := { dirset_sample with opt := 0, vect := 5 } },
          lpprg_zero]
        size := 4
        avail := 3 }
    lpg_stk := { stgb := some [⟨0⟩, ⟨1⟩, ⟨2⟩, ⟨0⟩], size := 4, top := 2 } }

/-- The state `direct_nested` once the inner loop was left: only the loop of
record 1 is open. -/
def direct_single : DIRECT :=
  { direct_nested with
    lpg_stk := { direct_nested.lpg_stk with top := 1 }
    loop := { dirset_sample with opt := 1, depchk := 0 } }

/-- Globals at the start of a routine, with the overrides `(f, 3, 7)` and
then `(f, 3, 9)` registered by `direct_xf`, in that order. -/
def globals_sample : Globals :=
  { flg := flg_sample
    direct := direct_nested
    xf_p := direct_xf (direct_xf [] "f" 3 7) "f" 3 9
    yf_p := []
    mach := 0
    errors := [] }

/-- The loop block `1: `, `b:5 e:10`, `v:4 4`, `z`. -/
def block_sample : Block :=
  { idx_line := "1: \n".toList
    be_line := "b:5 e:10\n".toList
    b_val := 5
    e_val := 10
    lines := ["v:4 4\n".toList]
    z_line := "z\n".toList }

/-- Globals at the start of a routine `f` with the one override
`(f, 8, 0)`. -/
def globals_switch8 : Globals :=
  { globals_sample with xf_p := direct_xf [] "f" 8 0 }

/-- A state between loops: the records of `direct_nested`, no loop open. -/
def direct_idle : DIRECT :=
  { direct_nested with
    in_loop := false
    loop_flag := false
    lpg_stk := { direct_nested.lpg_stk with top := 0 } }

/-- The sizes on a target with 8-byte pointers and an 8-byte `size_t`. -/
def sizes_lp64 : Sizes := { sizeof_action_map_t := 8, sizeof_action_list_t := 16 }

/-! ## Lemmas on the 32-bit operations -/

theorem toU32_lt (i : Int) : toU32 i < 4294967296 := by
  unfold toU32
  have h1 : 0 ≤ i % 4294967296 := Int.emod_nonneg _ (by norm_num)
  have h2 : i % 4294967296 < 4294967296 := Int.emod_lt_of_pos _ (by norm_num)
  omega

theorem toU32_ofU32 (n : Nat) (h : n < 4294967296) : toU32 (ofU32 n) = n := by
  unfold toU32 ofU32
  split <;> omega

theorem ofU32_toU32 (i : Int) (h : isInt32 i) : ofU32 (toU32 i) = i := by
  unfold isInt32 at h
  unfold toU32 ofU32
  split <;> omega

theorem isInt32_ofU32 (n : Nat) (h : n < 4294967296) : isInt32 (ofU32 n) := by
  unfold isInt32 ofU32
  split <;> omega

theorem testBit_u32_high (n i : Nat) (h : n < 4294967296) (hi : 32 ≤ i) :
    n.testBit i = false := by
  apply Nat.testBit_lt_two_pow
  calc n < 2 ^ 32 := by simpa using h
    _ ≤ 2 ^ i := Nat.pow_le_pow_right (by norm_num) hi

theorem testBit_mask32 (i : Nat) : (4294967295 : Nat).testBit i = decide (i < 32) := by
  have : (4294967295 : Nat) = 2 ^ 32 - 1 := by norm_num
  rw [this, Nat.testBit_two_pow_sub_one]

theorem and_lt_u32 (a b : Nat) (ha : a < 4294967296) : a &&& b < 4294967296 :=
  lt_of_le_of_lt Nat.and_le_left ha

theorem or_lt_u32 (a b : Nat) (ha : a < 4294967296) (hb : b < 4294967296) :
    a ||| b < 4294967296 := by
  have := @Nat.or_lt_two_pow a b 32 (by simpa using ha) (by simpa using hb)
  simpa using this

theorem xor_lt_u32 (a b : Nat) (ha : a < 4294967296) (hb : b < 4294967296) :
    a ^^^ b < 4294967296 := by
  have := @Nat.xor_lt_two_pow a b 32 (by simpa using ha) (by simpa using hb)
  simpa using this

theorem toU32_band (a b : Int) : toU32 (band a b) = toU32 a &&& toU32 b :=
  toU32_ofU32 _ (and_lt_u32 _ _ (toU32_lt a))

theorem toU32_bor (a b : Int) : toU32 (bor a b) = toU32 a ||| toU32 b :=
  toU32_ofU32 _ (or_lt_u32 _ _ (toU32_lt a) (toU32_lt b))

theorem toU32_bnot (a : Int) : toU32 (bnot a) = toU32 a ^^^ 4294967295 :=
  toU32_ofU32 _ (xor_lt_u32 _ _ (toU32_lt a) (by norm_num))

theorem isInt32_band (a b : Int) : isInt32 (band a b) :=
  isInt32_ofU32 _ (and_lt_u32 _ _ (toU32_lt a))

theorem isInt32_bor (a b : Int) : isInt32 (bor a b) :=
  isInt32_ofU32 _ (or_lt_u32 _ _ (toU32_lt a) (toU32_lt b))

/-- Bits of the merged pattern outside the mask are those of the prior value. -/
theorem merge_outside (P M V : Nat) (hM : M < 4294967296) :
    ((V &&& M) ||| (P &&& (M ^^^ 4294967295))) &&& (M ^^^ 4294967295)
      = P &&& (M ^^^ 4294967295) := by
  apply Nat.eq_of_testBit_eq
  intro i
  simp only [Nat.testBit_and, Nat.testBit_or, Nat.testBit_xor, testBit_mask32]
  by_cases hi : i < 32
  · simp only [hi, decide_True]
    cases V.testBit i <;> cases M.testBit i <;> cases P.testBit i <;> rfl
  · have hm := testBit_u32_high M i hM (by omega)
    simp only [hi, decide_False, hm]
    cases V.testBit i <;> cases P.testBit i <;> rfl

/-- Bits of the merged pattern inside the mask are those of the incoming value. -/
theorem merge_inside (P M V : Nat) (hM : M < 4294967296) :
    ((V &&& M) ||| (P &&& (M ^^^ 4294967295))) &&& M = V &&& M := by
  apply Nat.eq_of_testBit_eq
  intro i
  simp only [Nat.testBit_and, Nat.testBit_or, Nat.testBit_xor, testBit_mask32]
  by_cases hi : i < 32
  · simp only [hi, decide_True]
    cases V.testBit i <;> cases M.testBit i <;> cases P.testBit i <;> rfl
  · have hm := testBit_u32_high M i hM (by omega)
    simp only [hi, decide_False, hm]
    cases V.testBit i <;> cases P.testBit i <;> rfl

/-- The masked merge of 32-bit values is a 32-bit value. -/
theorem isInt32_ST_BV (m v p : Int) (hp : isInt32 p) : isInt32 (ST_BV m v p) := by
  unfold ST_BV
  split
  · exact isInt32_bor _ _
  · exact hp

/-! ## Theorems -/

/-- C1. Masked merge (`ST_BV`, as used by `rd_dir`): for every prior field
value `p`, mask `m` and incoming value `v`, the stored result `r` satisfies
`r & ~m == p & ~m` and `r & m == v & m`; the mask `0` is included (the store
is then skipped and `r` is `p`).  The operators are the 32-bit ones, so the
statement covers every 32-bit `p`, `m`, `v`. -/
theorem C1_masked_merge (p m v : Int) :
    band (ST_BV m v p) (bnot m) = band p (bnot m) ∧
    band (ST_BV m v p) m = band v m := by
  unfold ST_BV
  by_cases hm : m = 0
  · subst hm
    simp only [ne_eq, not_true_eq_false, if_false, true_and]
    unfold band
    have h0 : toU32 0 = 0 := by decide
    rw [h0, Nat.and_zero, Nat.and_zero]
  · simp only [ne_eq, hm, not_false_eq_true, if_true]
    constructor
    · show ofU32 (toU32 (bor (band v m) (band p (bnot m))) &&& toU32 (bnot m))
        = ofU32 (toU32 p &&& toU32 (bnot m))
      rw [toU32_bor, toU32_band, toU32_band, toU32_bnot,
        merge_outside _ _ _ (toU32_lt m)]
    · show ofU32 (toU32 (bor (band v m) (band p (bnot m))) &&& toU32 m)
        = ofU32 (toU32 v &&& toU32 m)
      rw [toU32_bor, toU32_band, toU32_band, toU32_bnot,
        merge_inside _ _ _ (toU32_lt m)]

/-- A line whose switch case breaks with the target `dd1`, followed by a `z`
line: `rd_dir` returns 0 with the target left as `dd1`, two lines read. -/
theorem rd_dir_brk_z (E : Ext) (rb : Bool) (dd dd1 : DIRSET) (line zline : List Char)
    (n : Int) (rest : FILE) (hsw : rd_dir_switch E rb dd line = Flow.brk dd1)
    (hz : line0 zline = 'z') :
    rd_dir E rb dd n (line :: zline :: rest) = some ⟨0, dd1, n + 2, rest⟩ := by
  have hzs : rd_dir_switch E rb dd1 zline = Flow.ret 0 := by
    unfold rd_dir_switch
    simp [hz]
  have hn : n + 1 + 1 = n + 2 := by ring
  rw [rd_dir, hsw]
  simp only []
  rw [rd_dir, hzs]
  simp only [hn]

/-- A line whose switch case breaks with the target `dd1`, at the end of the
stream: `rd_dir` returns 1 with the target left as `dd1`. -/
theorem rd_dir_brk_eof (E : Ext) (rb : Bool) (dd dd1 : DIRSET) (line : List Char)
    (n : Int) (hsw : rd_dir_switch E rb dd line = Flow.brk dd1) :
    rd_dir E rb dd n [line] = some ⟨1, dd1, n + 2, []⟩ := by
  have hn : n + 1 + 1 = n + 2 := by ring
  rw [rd_dir, hsw]
  simp only []
  rw [rd_dir]
  simp only [hn]

/-- C2. Policy selection in `rd_dir`, for a directive line with non-zero
mask `m` and value `v`.  A `v:` line sets `vect = v` when the target is the
routine-begin baseline and `vect = (v & m) | (vect & ~m)` for any other
target.  An `x<idx>:` line (with `idx` an index of the bank) sets
`x[idx] = v` for the baseline; for any other target it sets
`x[idx] = (v & m) | (x[idx] & ~m)` when `is_xflag_bit(idx)` holds and
`x[idx] = v` when it does not.  All other fields of the target are unchanged,
and `rd_dir` goes on with the next line.  For each kind of line this is
stated of the switch case (it breaks with the target so updated), of the
run of `rd_dir` (it continues from the next line with that target), and of
the target `rd_dir` leaves when the next line is the `z` line (return 0) or
the stream ends (return 1). -/
theorem C2_policy_selection (E : Ext) (is_rou_begin : Bool) (dd : DIRSET)
    (line : List Char) (m v : Int) (hm : m ≠ 0) (n : Int) (rest : FILE) :
    (line0 line = 'v' → sscanf line "v:%x %x" = [m, v] →
      rd_dir_switch E is_rou_begin dd line =
        Flow.brk { dd with vect := if is_rou_begin then v
                            else bor (band v m) (band dd.vect (bnot m)) } ∧
      rd_dir E is_rou_begin dd n (line :: rest) =
        rd_dir E is_rou_begin
          { dd with vect := if is_rou_begin then v
                            else bor (band v m) (band dd.vect (bnot m)) }
          (n + 1) rest ∧
      (∀ zline : List Char, line0 zline = 'z' →
        rd_dir E is_rou_begin dd n (line :: zline :: rest) =
          some ⟨0, { dd with vect := if is_rou_begin then v
                              else bor (band v m) (band dd.vect (bnot m)) },
                n + 2, rest⟩) ∧
      rd_dir E is_rou_begin dd n [line] =
        some ⟨1, { dd with vect := if is_rou_begin then v
                            else bor (band v m) (band dd.vect (bnot m)) },
              n + 2, []⟩) ∧
    (∀ idx old : Int, line0 line = 'x' → sscanf line "x%d:%x %x" = [idx, m, v] →
      get_at dd.x idx = some old →
      rd_dir_switch E is_rou_begin dd line =
        Flow.brk { dd with x := dd.x.set idx.toNat (if is_rou_begin then v
               else if E.is_xflag_bit idx then bor (band v m) (band old (bnot m))
               else v) } ∧
      rd_dir E is_rou_begin dd n (line :: rest) =
        rd_dir E is_rou_begin
          { dd with x := dd.x.set idx.toNat (if is_rou_begin then v
               else if E.is_xflag_bit idx then bor (band v m) (band old (bnot m))
               else v) }
          (n + 1) rest ∧
      (∀ zline : List Char, line0 zline = 'z' →
        rd_dir E is_rou_begin dd n (line :: zline :: rest) =
          some ⟨0, { dd with x := dd.x.set idx.toNat (if is_rou_begin then v
                 else if E.is_xflag_bit idx then bor (band v m) (band old (bnot m))
                 else v) },
                n + 2, rest⟩) ∧
      rd_dir E is_rou_begin dd n [line] =
        some ⟨1, { dd with x := dd.x.set idx.toNat (if is_rou_begin then v
               else if E.is_xflag_bit idx then bor (band v m) (band old (bnot m))
               else v) },
              n + 2, []⟩) := by
  constructor
  · intro h0 hs
    have hsw : rd_dir_switch E is_rou_begin dd line =
        Flow.brk { dd with vect := if is_rou_begin then v
                            else bor (band v m) (band dd.vect (bnot m)) } := by
      unfold rd_dir_switch
      rw [h0, hs]
      cases is_rou_begin <;> simp [ST_BV, ST_VAL, hm]
    refine ⟨hsw, ?_, ?_, ?_⟩
    · rw [rd_dir, hsw]
    · intro zline hz
      exact rd_dir_brk_z E is_rou_begin dd _ line zline n rest hsw hz
    · exact rd_dir_brk_eof E is_rou_begin dd _ line n hsw
  · intro idx old h0 hs hold
    have hsw : rd_dir_switch E is_rou_begin dd line =
        Flow.brk { dd with x := dd.x.set idx.toNat (if is_rou_begin then v
               else if E.is_xflag_bit idx then bor (band v m) (band old (bnot m))
               else v) } := by
      unfold rd_dir_switch
      rw [h0, hs]
      cases is_rou_begin <;> cases hb : E.is_xflag_bit idx <;>
        simp [store_x, ST_BV, ST_VAL, hm, hold, hb]
    refine ⟨hsw, ?_, ?_, ?_⟩
    · rw [rd_dir, hsw]
    · intro zline hz
      exact rd_dir_brk_z E is_rou_begin dd _ line zline n rest hsw hz
    · exact rd_dir_brk_eof E is_rou_begin dd _ line n hsw

/-- Witness of C2, on the streams `v:4 4`, `z` and `x<idx>:6 c`, `z`.  With
`vect` 3 before, `v:4 4` leaves `vect` 7 in a loop record's set and 4 in the
baseline.  With `x[3]` 9 before, `x3:6 c` leaves `x[3]` 13 in a loop record's
set (3 is a bit-vector index of the sample) and 12 in the baseline; with
`x[9]` 9 before, `x9:6 c` leaves `x[9]` 12 in a loop record's set (9 is not a
bit-vector index of the sample). -/
theorem C2_policy_selection_witness :
    fopen "v:4 4\nz\n" = ["v:4 4\n".toList, "z\n".toList] ∧
    dirset_sample.vect = 3 ∧
    ext_sample.is_xflag_bit 3 = true ∧ ext_sample.is_xflag_bit 9 = false ∧
    rd_dir ext_sample false dirset_sample 0 ["v:4 4\n".toList, "z\n".toList] =
      some ⟨0, { dirset_sample with vect := 7 }, 2, []⟩ ∧
    rd_dir ext_sample true dirset_sample 0 ["v:4 4\n".toList, "z\n".toList] =
      some ⟨0, { dirset_sample with vect := 4 }, 2, []⟩ ∧
    rd_dir ext_sample false { dirset_sample with x := (List.replicate 128 0).set 3 9 } 0
        ["x3:6 c\n".toList, "z\n".toList] =
      some ⟨0, { dirset_sample with x := (List.replicate 128 0).set 3 13 }, 2, []⟩ ∧
    rd_dir ext_sample true { dirset_sample with x := (List.replicate 128 0).set 3 9 } 0
        ["x3:6 c\n".toList, "z\n".toList] =
      some ⟨0, { dirset_sample with x := (List.replicate 128 0).set 3 12 }, 2, []⟩ ∧
    rd_dir ext_sample false { dirset_sample with x := (List.replicate 128 0).set 9 9 } 0
        ["x9:6 c\n".toList, "z\n".toList] =
      some ⟨0, { dirset_sample with x := (List.replicate 128 0).set 9 12 }, 2, []⟩ :=
  ⟨by decide, by decide, by decide, by decide,
   ((C2_policy_selection ext_sample false dirset_sample "v:4 4\n".toList 4 4 (by decide) 0
      []).1 (by decide) (by decide)).2.2.1 "z\n".toList (by decide),
   ((C2_policy_selection ext_sample true dirset_sample "v:4 4\n".toList 4 4 (by decide) 0
      []).1 (by decide) (by decide)).2.2.1 "z\n".toList (by decide),
   ((C2_policy_selection ext_sample false
      { dirset_sample with x := (List.replicate 128 0).set 3 9 } "x3:6 c\n".toList 6 12
      (by decide) 0 []).2 3 9 (by decide) (by decide) (by decide)).2.2.1
      "z\n".toList (by decide),
   ((C2_policy_selection ext_sample true
      { dirset_sample with x := (List.replicate 128 0).set 3 9 } "x3:6 c\n".toList 6 12
      (by decide) 0 []).2 3 9 (by decide) (by decide) (by decide)).2.2.1
      "z\n".toList (by decide),
   ((C2_policy_selection ext_sample false
      { dirset_sample with x := (List.replicate 128 0).set 9 9 } "x9:6 c\n".toList 6 12
      (by decide) 0 []).2 9 9 (by decide) (by decide) (by decide)).2.2.1
      "z\n".toList (by decide)⟩

/-- C3, counterexample.  The line `o:0 5` (mask 0, value 5) leaves the
optimization level of the target at 2, and `d:0 5` leaves the
dependence-check flag at 1, for a loop record's set and for the baseline. -/
theorem C3_overwrite_counterexample :
    sscanf "o:0 5\n".toList "o:%x %x" = [0, 5] ∧
    sscanf "d:0 5\n".toList "d:%x %x" = [0, 5] ∧
    dirset_sample.opt = 2 ∧ dirset_sample.depchk = 1 ∧
    rd_dir ext_sample false dirset_sample 0 (fopen "o:0 5\nz\n")
      = some ⟨0, dirset_sample, 2, []⟩ ∧
    rd_dir ext_sample true dirset_sample 0 (fopen "o:0 5\nz\n")
      = some ⟨0, dirset_sample, 2, []⟩ ∧
    rd_dir ext_sample false dirset_sample 0 (fopen "d:0 5\nz\n")
      = some ⟨0, dirset_sample, 2, []⟩ := by
  decide

/-- C3, amended.  For every `o:<mask> <value>` line and every
`d:<mask> <value>` line read by `rd_dir`, every value and every target
(baseline or loop record): when the mask is not 0 the optimization level
(resp. dependence-check flag) of the target becomes the value, whatever the
mask's bits are; when the mask is 0 the target is left as it was.  Nothing
else in the target changes and `rd_dir` goes on with the next line.  For each
kind of line this is stated of the switch case (it breaks with the target so
updated), of the run of `rd_dir` (it continues from the next line with that
target), and of the target `rd_dir` leaves when the next line is the `z`
line (return 0) or the stream ends (return 1). -/
theorem C3_overwrite_amended (E : Ext) (is_rou_begin : Bool) (dd : DIRSET)
    (line : List Char) (m v : Int) (n : Int) (rest : FILE) :
    (line0 line = 'o' → sscanf line "o:%x %x" = [m, v] →
      rd_dir_switch E is_rou_begin dd line =
        Flow.brk { dd with opt := if m = 0 then dd.opt else v } ∧
      rd_dir E is_rou_begin dd n (line :: rest) =
        rd_dir E is_rou_begin { dd with opt := if m = 0 then dd.opt else v } (n + 1) rest ∧
      (∀ zline : List Char, line0 zline = 'z' →
        rd_dir E is_rou_begin dd n (line :: zline :: rest) =
          some ⟨0, { dd with opt := if m = 0 then dd.opt else v }, n + 2, rest⟩) ∧
      rd_dir E is_rou_begin dd n [line] =
        some ⟨1, { dd with opt := if m = 0 then dd.opt else v }, n + 2, []⟩) ∧
    (line0 line = 'd' → sscanf line "d:%x %x" = [m, v] →
      rd_dir_switch E is_rou_begin dd line =
        Flow.brk { dd with depchk := if m = 0 then dd.depchk else v } ∧
      rd_dir E is_rou_begin dd n (line :: rest) =
        rd_dir E is_rou_begin { dd with depchk := if m = 0 then dd.depchk else v }
          (n + 1) rest ∧
      (∀ zline : List Char, line0 zline = 'z' →
        rd_dir E is_rou_begin dd n (line :: zline :: rest) =
          some ⟨0, { dd with depchk := if m = 0 then dd.depchk else v }, n + 2, rest⟩) ∧
      rd_dir E is_rou_begin dd n [line] =
        some ⟨1, { dd with depchk := if m = 0 then dd.depchk else v }, n + 2, []⟩) := by
  constructor
  · intro h0 hs
    have hsw : rd_dir_switch E is_rou_begin dd line =
        Flow.brk { dd with opt := if m = 0 then dd.opt else v } := by
      unfold rd_dir_switch
      rw [h0, hs]
      by_cases hm : m = 0 <;> simp [ST_VAL, hm]
    refine ⟨hsw, ?_, ?_, ?_⟩
    · rw [rd_dir, hsw]
    · intro zline hz
      exact rd_dir_brk_z E is_rou_begin dd _ line zline n rest hsw hz
    · exact rd_dir_brk_eof E is_rou_begin dd _ line n hsw
  · intro h0 hs
    have hsw : rd_dir_switch E is_rou_begin dd line =
        Flow.brk { dd with depchk := if m = 0 then dd.depchk else v } := by
      unfold rd_dir_switch
      rw [h0, hs]
      by_cases hm : m = 0 <;> simp [ST_VAL, hm]
    refine ⟨hsw, ?_, ?_, ?_⟩
    · rw [rd_dir, hsw]
    · intro zline hz
      exact rd_dir_brk_z E is_rou_begin dd _ line zline n rest hsw hz
    · exact rd_dir_brk_eof E is_rou_begin dd _ line n hsw

/-- Witness of C3 as amended, on streams of one directive line and the `z`
line, with `opt` 2 and `depchk` 1 before.  The line `o:ff 01` leaves `opt` 1
in the baseline and `o:8 5` (a mask without the value's bits) leaves `opt` 5
in a loop record's set; `d:f 0` leaves `depchk` 0 in a loop record's set;
`o:0 7` and `d:0 0` (mask 0) leave the baseline as it was. -/
theorem C3_overwrite_amended_witness :
    fopen "o:ff 01\nz\n" = ["o:ff 01\n".toList, "z\n".toList] ∧
    dirset_sample.opt = 2 ∧ dirset_sample.depchk = 1 ∧
    rd_dir ext_sample true dirset_sample 0 ["o:ff 01\n".toList, "z\n".toList] =
      some ⟨0, { dirset_sample with opt := 1 }, 2, []⟩ ∧
    rd_dir ext_sample false dirset_sample 0 ["o:8 5\n".toList, "z\n".toList] =
      some ⟨0, { dirset_sample with opt := 5 }, 2, []⟩ ∧
    rd_dir ext_sample false dirset_sample 0 ["d:f 0\n".toList, "z\n".toList] =
      some ⟨0, { dirset_sample with depchk := 0 }, 2, []⟩ ∧
    rd_dir ext_sample true dirset_sample 0 ["o:0 7\n".toList, "z\n".toList] =
      some ⟨0, dirset_sample, 2, []⟩ ∧
    rd_dir ext_sample true dirset_sample 0 ["d:0 0\n".toList, "z\n".toList] =
      some ⟨0, dirset_sample, 2, []⟩ :=
  ⟨by decide, by decide, by decide,
   ((C3_overwrite_amended ext_sample true dirset_sample "o:ff 01\n".toList 255 1 0
      []).1 (by decide) (by decide)).2.2.1 "z\n".toList (by decide),
   ((C3_overwrite_amended ext_sample false dirset_sample "o:8 5\n".toList 8 5 0
      []).1 (by decide) (by decide)).2.2.1 "z\n".toList (by decide),
   ((C3_overwrite_amended ext_sample false dirset_sample "d:f 0\n".toList 15 0 0
      []).2 (by decide) (by decide)).2.2.1 "z\n".toList (by decide),
   ((C3_overwrite_amended ext_sample true dirset_sample "o:0 7\n".toList 0 7 0
      []).1 (by decide) (by decide)).2.2.1 "z\n".toList (by decide),
   ((C3_overwrite_amended ext_sample true dirset_sample "d:0 0\n".toList 0 0 0
      []).2 (by decide) (by decide)).2.2.1 "z\n".toList (by decide)⟩

/-! ### `direct_loop_end` -/

theorem set_at_of_get_at {α : Type} (l : List α) (i : Int) (a b : α)
    (h : get_at l i = some a) : set_at l i b = some (l.set i.toNat b) := by
  unfold get_at at h
  unfold set_at
  split at h
  · rename_i h0
    have hlt : i.toNat < l.length := by
      by_contra hc
      rw [List.get?_eq_none.mpr (by omega)] at h
      cases h
    simp [h0, hlt]
  · cases h

theorem get_at_set_dirset (tbl : List LPPRG) (i j : Int) (lp par : LPPRG) (e : Int)
    (hi : get_at tbl i = some lp) (hj : get_at tbl j = some par) :
    ∃ par1, get_at (tbl.set i.toNat { lp with end_line := e }) j = some par1 ∧
      par1.dirset = par.dirset := by
  unfold get_at at hi hj ⊢
  split at hj
  · rename_i hj0
    split at hi
    · rename_i hi0
      simp only [hj0, if_true]
      by_cases hij : i.toNat = j.toNat
      · have hlt : j.toNat < tbl.length := by
          by_contra hc
          rw [List.get?_eq_none.mpr (by omega)] at hj
          cases hj
        refine ⟨{ lp with end_line := e }, ?_, ?_⟩
        · rw [hij]
          simp [List.get?_eq_getElem?, List.getElem?_set_self, hlt]
        · rw [hij] at hi
          rw [hi] at hj
          cases hj
          rfl
      · refine ⟨par, ?_, rfl⟩
        simp only [List.get?_eq_getElem?] at hj ⊢
        rw [List.getElem?_set_ne hij]
        exact hj
    · cases hi
  · cases hj

/-- C5. Last pop in `direct_loop_end`: with `in_loop` set, one entry on the
loop stack (`top == 1`) and that entry's record having `beg_line == b`, the
call `direct_loop_end(b, e)` ends with `top == 0`, that record's `end_line`
equal to `e`, `loop_flag` and `in_loop` cleared and `direct.loop` equal to
`direct.rou`; `direct.rou`, `direct.rou_begin`, `direct.gbl` and everything
else are as before. -/
theorem C5_last_pop (E : Ext) (flg : FLG) (direct : DIRECT) (b e : Int)
    (stk : List LPG_STK) (tbl : List LPPRG) (ent : LPG_STK) (lp : LPPRG)
    (hin : direct.in_loop = true) (htop : direct.lpg_stk.top = 1)
    (hstk : direct.lpg_stk.stgb = some stk) (htbl : direct.lpg.stgb = some tbl)
    (hent : get_at stk 1 = some ent) (hlp : get_at tbl ent.dirx = some lp)
    (hb : lp.beg_line = b) :
    direct_loop_end E flg direct b e =
      some { direct with
        lpg_stk := { direct.lpg_stk with top := 0 }
        lpg := { direct.lpg with
          stgb := some (tbl.set ent.dirx.toNat { lp with end_line := e }) }
        loop := direct.rou
        loop_flag := false
        in_loop := false } := by
  unfold direct_loop_end
  simp only [hin, Bool.not_true, htop, hstk, htbl, load, hent, hlp, hb, store,
    set_at_of_get_at tbl ent.dirx lp _ hlp]
  simp

/-- Witness of C5: leaving the loop of line 10 in `direct_single`. -/
theorem C5_last_pop_witness :
    direct_single.in_loop = true ∧ direct_single.lpg_stk.top = 1 ∧
    direct_loop_end ext_sample flg_sample direct_single 10 30 =
      some { direct_single with
        lpg_stk := { direct_single.lpg_stk with top := 0 }
        lpg := { direct_single.lpg with
          stgb := some [lpprg_zero,
            { beg_line := 10, end_line := 30,
              dirset := { dirset_sample with opt := 1, depchk := 0 } },
            { beg_line := 20, end_line := -1,
              dirset := { dirset_sample with opt := 0, vect := 5 } },
            lpprg_zero] }
        loop := dirset_sample
        loop_flag := false
        in_loop := false } :=
  ⟨rfl, rfl,
   C5_last_pop ext_sample flg_sample direct_single 10 30
     [⟨0⟩, ⟨1⟩, ⟨2⟩, ⟨0⟩] _ ⟨1⟩
     { beg_line := 10, end_line := -1, dirset := { dirset_sample with opt := 1, depchk := 0 } }
     rfl rfl rfl rfl rfl rfl rfl⟩

/-- C6, counterexample.  In `direct_nested` (two loops open, `XBIT(59, 1)`
equal to 0) leaving the inner loop makes `direct.loop` equal to `direct.rou`
with the parent record's `depchk`, which differs from the directive set of
the parent's record (the record of the new top entry). -/
theorem C6_intermediate_pop_counterexample :
    direct_nested.in_loop = true ∧ direct_nested.lpg_stk.top = 2 ∧
    ext_sample.XBIT flg_sample 59 1 = 0 ∧
    (direct_loop_end ext_sample flg_sample direct_nested 20 30).map
        (fun d => (d.lpg_stk.top, d.loop, top_dirset d))
      = some (1, { dirset_sample with depchk := 0 },
          some { dirset_sample with opt := 1, depchk := 0 }) ∧
    ({ dirset_sample with depchk := 0 } : DIRSET) ≠ { dirset_sample with opt := 1, depchk := 0 } := by
  decide

/-- C6, amended.  Intermediate pop in `direct_loop_end`: with `in_loop` set,
at least two entries on the loop stack and the top entry's record having
`beg_line == b`, after `direct_loop_end(b, e)` the depth is `top - 1`, that
record's `end_line` is `e`, `in_loop` and `loop_flag` are as before, and
`direct.loop` is: the directive set of the record of the new top entry (the
parent loop) when `XBIT(59, 1)` is set; otherwise `direct.rou` with only
`depchk` taken from the parent's record. -/
theorem C6_intermediate_pop_amended (E : Ext) (flg : FLG) (direct : DIRECT) (b e : Int)
    (stk : List LPG_STK) (tbl : List LPPRG) (ent ent1 : LPG_STK) (lp par : LPPRG)
    (hin : direct.in_loop = true) (htop : 2 ≤ direct.lpg_stk.top)
    (hstk : direct.lpg_stk.stgb = some stk) (htbl : direct.lpg.stgb = some tbl)
    (hent : get_at stk direct.lpg_stk.top = some ent)
    (hlp : get_at tbl ent.dirx = some lp) (hb : lp.beg_line = b)
    (hent1 : get_at stk (direct.lpg_stk.top - 1) = some ent1)
    (hpar : get_at tbl ent1.dirx = some par) :
    direct_loop_end E flg direct b e =
      some { direct with
        lpg_stk := { direct.lpg_stk with top := direct.lpg_stk.top - 1 }
        lpg := { direct.lpg with
          stgb := some (tbl.set ent.dirx.toNat { lp with end_line := e }) }
        loop := if E.XBIT flg 59 1 ≠ 0 then par.dirset
                else { direct.rou with depchk := par.dirset.depchk } } := by
  subst hb
  obtain ⟨par1, hpar1, hds⟩ := get_at_set_dirset tbl ent.dirx ent1.dirx lp par e hlp hpar
  have hne : ¬ (direct.lpg_stk.top - 1 = 0) := by omega
  unfold direct_loop_end
  simp only [hin, Bool.not_true, hstk, htbl, load, hent, hlp, store,
    set_at_of_get_at tbl ent.dirx lp _ hlp, top_dirset, hent1, hpar1, hds, hne]
  by_cases hx : E.XBIT flg 59 1 = 0 <;> simp [hx]

/-- Witness of C6 as amended: leaving the inner loop of `direct_nested`. -/
theorem C6_intermediate_pop_amended_witness :
    direct_nested.in_loop = true ∧ (2 : Int) ≤ direct_nested.lpg_stk.top ∧
    direct_loop_end ext_sample flg_sample direct_nested 20 30 =
      some { direct_nested with
        lpg_stk := { direct_nested.lpg_stk with top := 1 }
        lpg := { direct_nested.lpg with
          stgb := some [lpprg_zero,
            { beg_line := 10, end_line := -1,
              dirset := { dirset_sample with opt := 1, depchk := 0 } },
            { beg_line := 20, end_line := 30,
              dirset := { dirset_sample with opt := 0, vect := 5 } },
            lpprg_zero] }
        loop := { dirset_sample with depchk := 0 } } :=
  ⟨rfl, by decide,
   C6_intermediate_pop_amended ext_sample flg_sample direct_nested 20 30
     [⟨0⟩, ⟨1⟩, ⟨2⟩, ⟨0⟩] _ ⟨2⟩ ⟨1⟩
     { beg_line := 20, end_line := -1, dirset := { dirset_sample with opt := 0, vect := 5 } }
     { beg_line := 10, end_line := -1, dirset := { dirset_sample with opt := 1, depchk := 0 } }
     rfl (by decide) rfl rfl rfl rfl rfl rfl rfl⟩

/-- C7. Defensive no-op in `direct_loop_end`: if `in_loop` is not set, or if
the loop record referenced by the top stack entry has `beg_line != b`, then
`direct_loop_end(b, e)` leaves the whole state as it was (the four directive
sets, the three flags, the loop stack, and every loop record). -/
theorem C7_defensive_noop (E : Ext) (flg : FLG) (direct : DIRECT) (b e : Int)
    (h : direct.in_loop = false ∨
      ∃ ent lp, load direct.lpg_stk.stgb direct.lpg_stk.top = some ent ∧
        load direct.lpg.stgb ent.dirx = some lp ∧ lp.beg_line ≠ b) :
    direct_loop_end E flg direct b e = some direct := by
  unfold direct_loop_end
  rcases h with h | ⟨ent, lp, hent, hlp, hb⟩
  · simp [h]
  · cases hin : direct.in_loop
    · simp
    · simp [hent, hlp, hb]

/-- Witness of C7: in `direct_nested` the open loop starts at line 20, so an
exit for a loop of line 10 changes nothing; nor does any exit once `in_loop`
is clear. -/
theorem C7_defensive_noop_witness :
    direct_loop_end ext_sample flg_sample direct_nested 10 30 = some direct_nested ∧
    direct_loop_end ext_sample flg_sample { direct_nested with in_loop := false } 20 30
      = some { direct_nested with in_loop := false } :=
  ⟨C7_defensive_noop ext_sample flg_sample direct_nested 10 30
     (Or.inr ⟨⟨2⟩,
        { beg_line := 20, end_line := -1, dirset := { dirset_sample with opt := 0, vect := 5 } },
        rfl, rfl, by decide⟩),
   C7_defensive_noop ext_sample flg_sample { direct_nested with in_loop := false } 20 30
     (Or.inl rfl)⟩

/-! ### Overrides -/

theorem set_at_some {α : Type} (l : List α) (i : Int) (a : α) (h0 : 0 ≤ i)
    (h1 : i < l.length) : set_at l i a = some (l.set i.toNat a) := by
  unfold set_at
  have : i.toNat < l.length := by omega
  simp [h0, this]

theorem get_at_set_self {α : Type} (l : List α) (i : Int) (a : α) (h0 : 0 ≤ i)
    (h1 : i < l.length) : get_at (l.set i.toNat a) i = some a := by
  unfold get_at
  have : i.toNat < l.length := by omega
  simp [h0, List.get?_eq_getElem?, List.getElem?_set_self, this]

theorem get_at_set_other {α : Type} (l : List α) (i j : Int) (a : α) (h0 : 0 ≤ i)
    (hij : i ≠ j) : get_at (l.set i.toNat a) j = get_at l j := by
  unfold get_at
  split
  · rename_i hj
    have : i.toNat ≠ j.toNat := by omega
    simp only [List.get?_eq_getElem?]
    rw [List.getElem?_set_ne this]
  · rfl

/-- One matching, in-range record under the overwriting setter: the switch
takes the record's value in `flg` and in `*currdir`. -/
theorem apply_xf_match (f : String) (r : XF) (next : List XF) (flg : FLG) (cur : DIRSET)
    (hf : r.fn = f) (h0 : 0 ≤ r.x) (h1 : r.x < flg.x.length) (h2 : r.x < cur.x.length) :
    apply_xf set_flag_overwrite f (r :: next) flg cur =
      apply_xf set_flag_overwrite f next { flg with x := flg.x.set r.x.toNat r.v }
        { cur with x := cur.x.set r.x.toNat r.v } := by
  have hs : set_flag_overwrite flg r.x r.v = { flg with x := flg.x.set r.x.toNat r.v } := by
    unfold set_flag_overwrite
    rw [set_at_some _ _ _ h0 h1]
  rw [apply_xf]
  simp only [hf, if_true, hs, get_at_set_self _ _ _ h0 h1, set_at_some _ _ _ h0 h2]

/-- The walk over an override list under the overwriting setter, when every
matching record is in range: it succeeds, touches nothing but the switches,
keeps the sizes of the banks, and leaves alone every switch that no matching
record names. -/
theorem apply_xf_frame (f : String) (N : Nat) :
    ∀ (xs : List XF) (flg : FLG) (cur : DIRSET),
      flg.x.length = N → cur.x.length = N →
      (∀ r ∈ xs, r.fn = f → 0 ≤ r.x ∧ r.x < N) →
      ∃ flg1 cur1, apply_xf set_flag_overwrite f xs flg cur = some (flg1, cur1) ∧
        flg1.x.length = N ∧ cur1.x.length = N ∧
        flg1.opt = flg.opt ∧ flg1.vect = flg.vect ∧ flg1.depchk = flg.depchk ∧
        flg1.tpvalue = flg.tpvalue ∧
        cur1.opt = cur.opt ∧ cur1.vect = cur.vect ∧ cur1.depchk = cur.depchk ∧
        cur1.tpvalue = cur.tpvalue ∧
        ∀ j : Int, (∀ r ∈ xs, r.fn = f → r.x ≠ j) →
          get_at flg1.x j = get_at flg.x j ∧ get_at cur1.x j = get_at cur.x j := by
  intro xs
  induction xs with
  | nil =>
    intro flg cur hf hc _
    exact ⟨flg, cur, rfl, hf, hc, rfl, rfl, rfl, rfl, rfl, rfl, rfl, rfl, fun _ _ => ⟨rfl, rfl⟩⟩
  | cons r next ih =>
    intro flg cur hf hc hin
    have hnext : ∀ r1 ∈ next, r1.fn = f → 0 ≤ r1.x ∧ r1.x < N :=
      fun r1 h1 => hin r1 (List.mem_cons_of_mem _ h1)
    by_cases hr : r.fn = f
    · obtain ⟨h0, h1⟩ := hin r (List.mem_cons_self _ _) hr
      rw [apply_xf_match f r next flg cur hr h0 (by omega) (by omega)]
      obtain ⟨flg1, cur1, he, hl1, hl2, a1, a2, a3, a4, b1, b2, b3, b4, hfr⟩ :=
        ih { flg with x := flg.x.set r.x.toNat r.v } { cur with x := cur.x.set r.x.toNat r.v }
          (by simp [hf]) (by simp [hc]) hnext
      refine ⟨flg1, cur1, he, hl1, hl2, a1, a2, a3, a4, b1, b2, b3, b4, ?_⟩
      intro j hj
      have hrj : r.x ≠ j := hj r (List.mem_cons_self _ _) hr
      obtain ⟨c1, c2⟩ := hfr j (fun r1 h1 => hj r1 (List.mem_cons_of_mem _ h1))
      rw [c1, c2]
      exact ⟨get_at_set_other _ _ _ _ h0 hrj, get_at_set_other _ _ _ _ h0 hrj⟩
    · obtain ⟨flg1, cur1, he, hl1, hl2, a1, a2, a3, a4, b1, b2, b3, b4, hfr⟩ :=
        ih flg cur hf hc hnext
      refine ⟨flg1, cur1, ?_, hl1, hl2, a1, a2, a3, a4, b1, b2, b3, b4, ?_⟩
      · rw [apply_xf]
        simp only [hr, if_false]
        exact he
      · intro j hj
        exact hfr j (fun r1 h1 => hj r1 (List.mem_cons_of_mem _ h1))

/-- What `direct_rou_load` leaves in the switches, from the outcome of its
two walks: `rou_begin.x` is `currdir->x` as the walks left it, and `flg.x` is
the bank as the walks left it, with `flg.x[8] |= 0x8` applied when
`gbl.vfrets` is set. -/
theorem direct_rou_load_switches (E : Ext) (gbl : GBL) (g : Globals)
    (flg1 flg2 : FLG) (cur1 cur2 : DIRSET) (w tp : Int)
    (h1 : apply_xf E.set_xflag gbl.currsub g.xf_p (load_dirset g.flg g.direct.rou_begin)
      g.direct.rou_begin = some (flg1, cur1))
    (h2 : apply_xf E.set_yflag gbl.currsub g.yf_p flg1 cur1 = some (flg2, cur2))
    (h8 : gbl.vfrets ≠ 0 → get_at flg2.x 8 = some w)
    (htp : get_at cur2.tpvalue (if gbl.multiversion = 0 then 0 else gbl.multiversion - 1)
      = some tp) :
    ∃ g1, direct_rou_load E gbl g = some g1 ∧
      g1.direct.rou_begin.x = cur2.x ∧
      g1.flg.x = if gbl.vfrets ≠ 0 then flg2.x.set 8 (bor w 8) else flg2.x := by
  unfold direct_rou_load
  simp only [h1, h2]
  by_cases hv : gbl.vfrets = 0
  · by_cases ha : gbl.asgnlbls = -1 <;> by_cases ho : 2 ≤ flg2.opt <;>
      simp [hv, ha, ho, htp]
  · have h8w := h8 hv
    by_cases ha : gbl.asgnlbls = -1 <;> by_cases ho : 2 ≤ flg2.opt <;>
      simp [hv, ha, ho, htp, h8w]

theorem get_at_of_lt {α : Type} (l : List α) (i : Int) (h0 : 0 ≤ i) (h1 : i < l.length) :
    ∃ a, get_at l i = some a := by
  have hlt : i.toNat < l.length := by omega
  refine ⟨l[i.toNat], ?_⟩
  unfold get_at
  simp [h0, List.get?_eq_getElem?, List.getElem?_eq_getElem hlt]

/-- C10, counterexample.  With `(f, 3, 7)` and then `(f, 3, 9)` registered by
`direct_xf` (the list then starts with the record of 9), `direct_rou_load`
for the routine `f`, with the overwriting setter, leaves switch 3 equal to 7,
not 9, in `flg` and in `direct.rou_begin`. -/
theorem C10_override_order_counterexample :
    globals_sample.xf_p = [⟨"f", 3, 9⟩, ⟨"f", 3, 7⟩] ∧
    (direct_rou_load ext_sample ⟨"f", 0, 0, 0⟩ globals_sample).map
        (fun g => (get_at g.flg.x 3, get_at g.direct.rou_begin.x 3))
      = some (some 7, some 7) := by
  decide

/-- C10, amended.  Override application order: if `direct_xf(f, k, v1)` and
then `direct_xf(f, k, v2)` are the only registrations for `f` and `k`, then
after `direct_rou_load` for a routine named `f` (setting an external switch
being overwriting it with the value) switch `k` equals `v1`, the value
registered first, in `direct.rou_begin` and in the external switch bank: the
list is walked from its head, so `v2` is applied first and `v1` last.  (In
the external bank switch 8 has in addition bit `0x8` set when the routine
has variable-format returns.)  The matching records are taken to name
switches of the bank. -/
theorem C10_override_order_amended (E : Ext) (gbl : GBL) (g : Globals) (f : String)
    (k v1 v2 : Int) (xs0 : List XF) (N : Nat) (tp : Int)
    (hx : E.set_xflag = set_flag_overwrite) (hy : E.set_yflag = set_flag_overwrite)
    (hname : gbl.currsub = f)
    (hreg : g.xf_p = direct_xf (direct_xf xs0 f k v1) f k v2)
    (honly_x : ∀ r ∈ xs0, r.fn = f → r.x ≠ k)
    (honly_y : ∀ r ∈ g.yf_p, r.fn = f → r.x ≠ k)
    (hN : g.direct.rou_begin.x.length = N) (hk0 : 0 ≤ k) (hk1 : k < N)
    (hin_x : ∀ r ∈ xs0, r.fn = f → 0 ≤ r.x ∧ r.x < N)
    (hin_y : ∀ r ∈ g.yf_p, r.fn = f → 0 ≤ r.x ∧ r.x < N)
    (h8 : gbl.vfrets ≠ 0 → 8 < N)
    (htp : get_at g.direct.rou_begin.tpvalue
      (if gbl.multiversion = 0 then 0 else gbl.multiversion - 1) = some tp) :
    ∃ g1, direct_rou_load E gbl g = some g1 ∧
      get_at g1.direct.rou_begin.x k = some v1 ∧
      get_at g1.flg.x k = some (if gbl.vfrets ≠ 0 ∧ k = 8 then bor v1 8 else v1) := by
  subst hname
  -- the two records at the head of the list
  have hN0 : (load_dirset g.flg g.direct.rou_begin).x.length = N := hN
  have step :
      apply_xf set_flag_overwrite gbl.currsub g.xf_p (load_dirset g.flg g.direct.rou_begin)
          g.direct.rou_begin =
        apply_xf set_flag_overwrite gbl.currsub xs0
          { load_dirset g.flg g.direct.rou_begin with
            x := (g.direct.rou_begin.x.set k.toNat v2).set k.toNat v1 }
          { g.direct.rou_begin with
            x := (g.direct.rou_begin.x.set k.toNat v2).set k.toNat v1 } := by
    rw [hreg, direct_xf, direct_xf,
      apply_xf_match gbl.currsub ⟨gbl.currsub, k, v2⟩ _ _ _ rfl hk0 (by rw [hN0]; exact hk1)
        (by rw [hN]; exact hk1),
      apply_xf_match gbl.currsub ⟨gbl.currsub, k, v1⟩ _ _ _ rfl hk0
        (by simp only [List.length_set]; rw [hN0]; exact hk1)
        (by simp only [List.length_set]; rw [hN]; exact hk1)]
    rfl
  have hlen : ((g.direct.rou_begin.x.set k.toNat v2).set k.toNat v1).length = N := by
    simp [hN]
  obtain ⟨flg1, cur1, he1, hl1, hc1, -, -, -, -, -, -, -, ht1, hfr1⟩ :=
    apply_xf_frame gbl.currsub N xs0
      { load_dirset g.flg g.direct.rou_begin with
        x := (g.direct.rou_begin.x.set k.toNat v2).set k.toNat v1 }
      { g.direct.rou_begin with
        x := (g.direct.rou_begin.x.set k.toNat v2).set k.toNat v1 } hlen hlen hin_x
  obtain ⟨flg2, cur2, he2, hl2, hc2, -, -, -, -, -, -, -, ht2, hfr2⟩ :=
    apply_xf_frame gbl.currsub N g.yf_p flg1 cur1 hl1 hc1 hin_y
  have hv1 : get_at ((g.direct.rou_begin.x.set k.toNat v2).set k.toNat v1) k = some v1 :=
    get_at_set_self _ _ _ hk0 (by simp only [List.length_set]; rw [hN]; exact hk1)
  have hflg2 : get_at flg2.x k = some v1 := by
    rw [(hfr2 k honly_y).1, (hfr1 k honly_x).1]; exact hv1
  have hcur2 : get_at cur2.x k = some v1 := by
    rw [(hfr2 k honly_y).2, (hfr1 k honly_x).2]; exact hv1
  have htp2 : get_at cur2.tpvalue (if gbl.multiversion = 0 then 0 else gbl.multiversion - 1)
      = some tp := by
    rw [ht2, ht1]; exact htp
  by_cases hv : gbl.vfrets = 0
  · obtain ⟨g1, hg1, hrb, hfl⟩ :=
      direct_rou_load_switches E gbl g flg1 flg2 cur1 cur2 0 tp
        (by rw [hx, step]; exact he1) (by rw [hy]; exact he2)
        (fun h => absurd hv h) htp2
    refine ⟨g1, hg1, ?_, ?_⟩
    · rw [hrb]; exact hcur2
    · rw [hfl]; simp [hv, hflg2]
  · obtain ⟨w, hw⟩ := get_at_of_lt flg2.x 8 (by norm_num) (by rw [hl2]; exact_mod_cast h8 hv)
    obtain ⟨g1, hg1, hrb, hfl⟩ :=
      direct_rou_load_switches E gbl g flg1 flg2 cur1 cur2 w tp
        (by rw [hx, step]; exact he1) (by rw [hy]; exact he2) (fun _ => hw) htp2
    refine ⟨g1, hg1, ?_, ?_⟩
    · rw [hrb]; exact hcur2
    · rw [hfl]
      simp only [ne_eq, hv, not_false_eq_true, if_true, true_and]
      by_cases hk8 : k = 8
      · subst hk8
        rw [hflg2] at hw
        cases hw
        have := get_at_set_self flg2.x 8 (bor v1 8) (by norm_num)
          (by rw [hl2]; exact_mod_cast h8 hv)
        simpa using this
      · simp only [hk8, if_false]
        have := get_at_set_other flg2.x 8 k (bor w 8) (by norm_num) (fun h => hk8 h.symm)
        rw [← hflg2]
        simpa using this

/-- Witness of C10 as amended: `(f, 3, 7)` then `(f, 3, 9)` gives switch 3
equal to 7. -/
theorem C10_override_order_amended_witness :
    ∃ g1, direct_rou_load ext_sample ⟨"f", 0, 0, 0⟩ globals_sample = some g1 ∧
      get_at g1.direct.rou_begin.x 3 = some 7 ∧
      get_at g1.flg.x 3 = some (if (0 : Int) ≠ 0 ∧ (3 : Int) = 8 then bor 7 8 else 7) :=
  C10_override_order_amended ext_sample ⟨"f", 0, 0, 0⟩ globals_sample "f" 3 7 9 [] 128 0
    rfl rfl rfl rfl (by simp) (by simp [globals_sample]) rfl (by decide) (by decide)
    (by simp) (by simp [globals_sample]) (by decide) (by decide)

/-! ### `rd_dir` on directive blocks -/

theorem store_x_brk (dd : DIRSET) (idx change : Int) (new : Int → Int)
    (h : change = 0 ∨ (0 ≤ idx ∧ idx < dd.x.length)) :
    ∃ dd1, store_x dd idx change new = Flow.brk dd1 ∧ dd1.x.length = dd.x.length := by
  unfold store_x
  by_cases hc : change = 0
  · exact ⟨dd, by simp [hc], rfl⟩
  · rcases h with h | ⟨h0, h1⟩
    · exact absurd h hc
    · obtain ⟨old, hold⟩ := get_at_of_lt dd.x idx h0 h1
      refine ⟨{ dd with x := dd.x.set idx.toNat (new old) }, ?_, by simp⟩
      simp only [ne_eq, hc, not_false_eq_true, if_true, hold]

/-- A directive line is applied: the `switch` ends with `break`, and the bank
keeps its size. -/
theorem switch_directive_line (E : Ext) (rb : Bool) (dd : DIRSET) (line : List Char)
    (h : directive_line dd.x.length line = true) :
    rd_dir_switch E rb dd line = Flow.brk (apply_line E rb dd line) ∧
      (apply_line E rb dd line).x.length = dd.x.length := by
  have key : ∃ dd1, rd_dir_switch E rb dd line = Flow.brk dd1 ∧
      dd1.x.length = dd.x.length := by
    unfold directive_line at h
    unfold rd_dir_switch
    by_cases ho : line0 line = 'o'
    · rw [ho] at h ⊢
      rcases hs : sscanf line "o:%x %x" with _ | ⟨c, _ | ⟨v, _ | ⟨w, t⟩⟩⟩ <;>
        simp [hs] at h ⊢
    · by_cases hv : line0 line = 'v'
      · rw [hv] at h ⊢
        rcases hs : sscanf line "v:%x %x" with _ | ⟨c, _ | ⟨v, _ | ⟨w, t⟩⟩⟩ <;>
          simp [hs] at h ⊢
        cases rb <;> simp
      · by_cases hd : line0 line = 'd'
        · rw [hd] at h ⊢
          rcases hs : sscanf line "d:%x %x" with _ | ⟨c, _ | ⟨v, _ | ⟨w, t⟩⟩⟩ <;>
            simp [hs] at h ⊢
        · by_cases hx : line0 line = 'x'
          · rw [hx] at h ⊢
            rcases hs : sscanf line "x%d:%x %x" with
              _ | ⟨idx, _ | ⟨c, _ | ⟨v, _ | ⟨w, t⟩⟩⟩⟩ <;> simp [hs] at h ⊢
            have hb : c = 0 ∨ (0 ≤ idx ∧ idx < dd.x.length) := h
            split
            · exact store_x_brk dd idx c _ hb
            · split
              · exact store_x_brk dd idx c _ hb
              · exact store_x_brk dd idx c _ hb
          · simp [ho, hv, hd, hx] at h
  obtain ⟨dd1, h1, h2⟩ := key
  have : apply_line E rb dd line = dd1 := by
    unfold apply_line
    rw [h1]
  rw [this]
  exact ⟨h1, h2⟩

theorem apply_lines_cons (E : Ext) (rb : Bool) (dd : DIRSET) (l : List Char) (ls : FILE) :
    apply_lines E rb dd (l :: ls) = apply_lines E rb (apply_line E rb dd l) ls := rfl

/-- Reading directive lines: `rd_dir` goes on after them with the lines
applied in order, one count per line. -/
theorem rd_dir_lines (E : Ext) (rb : Bool) :
    ∀ (ls : FILE) (dd : DIRSET) (n : Int) (tail : FILE),
      (∀ l ∈ ls, directive_line dd.x.length l = true) →
      rd_dir E rb dd n (ls ++ tail) =
          rd_dir E rb (apply_lines E rb dd ls) (n + ls.length) tail ∧
        (apply_lines E rb dd ls).x.length = dd.x.length := by
  intro ls
  induction ls with
  | nil =>
    intro dd n tail _
    simp [apply_lines]
  | cons l ls ih =>
    intro dd n tail h
    obtain ⟨hsw, hlen⟩ := switch_directive_line E rb dd l (h l (List.mem_cons_self _ _))
    have hrest : ∀ l1 ∈ ls, directive_line (apply_line E rb dd l).x.length l1 = true := by
      intro l1 h1
      rw [hlen]
      exact h l1 (List.mem_cons_of_mem _ h1)
    obtain ⟨h1, h2⟩ := ih (apply_line E rb dd l) (n + 1) tail hrest
    constructor
    · rw [List.cons_append, rd_dir, hsw]
      simp only
      rw [h1, apply_lines_cons]
      congr 1
      simp only [List.length_cons, Nat.cast_add, Nat.cast_one]
      ring
    · rw [apply_lines_cons, h2, hlen]

/-- A directive block (directive lines, then a `z` line): `rd_dir` returns 0
with the lines applied in order, having counted every line of the block. -/
theorem rd_dir_block (E : Ext) (rb : Bool) (ls : FILE) (z : List Char) (dd : DIRSET)
    (n : Int) (rest : FILE) (h : ∀ l ∈ ls, directive_line dd.x.length l = true)
    (hz : line0 z = 'z') :
    rd_dir E rb dd n (ls ++ z :: rest) =
      some ⟨0, apply_lines E rb dd ls, n + ls.length + 1, rest⟩ := by
  rw [(rd_dir_lines E rb ls dd n (z :: rest) h).1, rd_dir]
  have : rd_dir_switch E rb (apply_lines E rb dd ls) z = Flow.ret 0 := by
    unfold rd_dir_switch
    simp [hz]
  rw [this]

/-- A directive block cut short before its `z` line: `rd_dir` returns 1, and
the failed read at the end of the stream is counted too. -/
theorem rd_dir_truncated (E : Ext) (rb : Bool) (ls : FILE) (dd : DIRSET) (n : Int)
    (h : ∀ l ∈ ls, directive_line dd.x.length l = true) :
    rd_dir E rb dd n ls = some ⟨1, apply_lines E rb dd ls, n + ls.length + 1, []⟩ := by
  have := (rd_dir_lines E rb ls dd n [] h).1
  rw [List.append_nil] at this
  rw [this, rd_dir]

/-! ### `direct_import` on well-formed blocks -/

theorem Block.wf_iff (nx : Nat) (i : Int) (blk : Block) :
    blk.wf nx i = true ↔
      sscanf blk.idx_line "%d: " = [i] ∧
      sscanf blk.be_line "b:%d e:%d" = [blk.b_val, blk.e_val] ∧
      (∀ l ∈ blk.lines, directive_line nx l = true) ∧ line0 blk.z_line = 'z' := by
  unfold Block.wf
  simp only [Bool.and_eq_true, decide_eq_true_eq, List.all_eq_true]
  tauto

/-- One pass of the loop of `direct_import` over a well-formed block: record
`i` becomes the record the block describes, every line of the block is
counted, and the loop goes on with `i + 1`. -/
theorem import_loop_block (E : Ext) (nx : Nat) (blk : Block) (k : Nat) (i : Int)
    (direct : DIRECT) (tbl : List LPPRG) (n : Int) (rest : FILE)
    (htbl : direct.lpg.stgb = some tbl) (h0 : 0 ≤ i) (h1 : i < tbl.length)
    (hnx : direct.rou_begin.x.length = nx) (hwf : blk.wf nx i = true) :
    import_loop E (k + 1) i direct n (blk.text ++ rest) =
      import_loop E k (i + 1)
        { direct with lpg := { direct.lpg with
            stgb := some (tbl.set i.toNat (blk.record E direct.rou_begin)) } }
        (n + blk.text.length) rest := by
  obtain ⟨hidx, hbe, hls, hz⟩ := (Block.wf_iff nx i blk).mp hwf
  obtain ⟨lp, hlp⟩ := get_at_of_lt tbl i h0 h1
  have hrd := rd_dir_block E false blk.lines blk.z_line direct.rou_begin (n + 1 + 1) rest
    (by rw [hnx]; exact hls) hz
  rw [import_loop]
  simp only [Block.text, List.cons_append, List.append_assoc, List.singleton_append,
    read_line, hidx, hbe, ne_eq, not_true_eq_false, if_false, load, htbl, hlp,
    List.length_cons, List.length_nil, assign_b_e, hrd, store,
    set_at_some tbl i _ h0 h1, List.cons_ne_nil, List.length_append, List.length_singleton,
    Block.record, List.nil_append]
  simp only [zero_add, Nat.reduceAdd, ne_eq, not_true_eq_false, if_false]
  congr 1
  push_cast
  ring

theorem fill_records_length (E : Ext) (rb : DIRSET) :
    ∀ (bs : List Block) (i : Int) (tbl : List LPPRG),
      (fill_records E rb i bs tbl).length = tbl.length := by
  intro bs
  induction bs with
  | nil => intro i tbl; rfl
  | cons blk bs ih =>
    intro i tbl
    rw [fill_records, ih, List.length_set]

/-- The loop of `direct_import` over consecutive well-formed blocks: the
records from `i` on become the records the blocks describe, and the loop goes
on behind them. -/
theorem import_loop_blocks (E : Ext) (nx : Nat) :
    ∀ (bs : List Block) (k : Nat) (i : Int) (direct : DIRECT) (tbl : List LPPRG) (n : Int)
      (rest : FILE),
      direct.lpg.stgb = some tbl → 0 ≤ i → (bs = [] ∨ i + bs.length ≤ tbl.length) →
      direct.rou_begin.x.length = nx → blocks_wf nx i bs = true →
      import_loop E (bs.length + k) i direct n (blocks_text bs ++ rest) =
        import_loop E k (i + bs.length)
          { direct with lpg := { direct.lpg with
              stgb := some (fill_records E direct.rou_begin i bs tbl) } }
          (n + (blocks_text bs).length) rest := by
  intro bs
  induction bs with
  | nil =>
    intro k i direct tbl n rest htbl _ _ _ _
    simp only [List.length_nil, zero_add, blocks_text, List.nil_append, Nat.cast_zero,
      add_zero, fill_records]
    congr 1
    cases direct with
    | mk g r l rbg lf il cf av sz st lpg stk =>
      cases lpg with
      | mk st2 sz2 av2 =>
        simp only at htbl
        simp only [htbl]
  | cons blk bs ih =>
    intro k i direct tbl n rest htbl h0 hlen hnx hwf
    have hlen1 : i + ((bs.length : Int) + 1) ≤ tbl.length := by
      rcases hlen with h | h
      · cases h
      · simpa using h
    rw [blocks_wf, Bool.and_eq_true] at hwf
    have e1 : (blk :: bs).length + k = (bs.length + k) + 1 := by
      simp only [List.length_cons]; omega
    rw [e1, blocks_text, List.append_assoc,
      import_loop_block E nx blk (bs.length + k) i direct tbl n _ htbl h0 (by omega) hnx hwf.1]
    have step := ih k (i + 1)
      { direct with lpg := { direct.lpg with
          stgb := some (tbl.set i.toNat (blk.record E direct.rou_begin)) } }
      (tbl.set i.toNat (blk.record E direct.rou_begin)) (n + blk.text.length) rest rfl
      (by omega) (Or.inr (by rw [List.length_set]; omega)) hnx hwf.2
    rw [step]
    simp only [fill_records, List.length_cons, List.length_append, Nat.cast_add, Nat.cast_one]
    congr 1 <;> ring

theorem get_at_fill_records_lt (E : Ext) (rb : DIRSET) :
    ∀ (bs : List Block) (i : Int) (tbl : List LPPRG) (m : Int), 0 ≤ i → m < i →
      get_at (fill_records E rb i bs tbl) m = get_at tbl m := by
  intro bs
  induction bs with
  | nil => intro i tbl m _ _; rfl
  | cons blk bs ih =>
    intro i tbl m h0 hm
    rw [fill_records, ih (i + 1) _ m (by omega) (by omega)]
    exact get_at_set_other tbl i m _ h0 (by omega)

/-- Record `i + j` of the filled table is the record of block `j`. -/
theorem get_at_fill_records (E : Ext) (rb : DIRSET) :
    ∀ (bs : List Block) (i : Int) (tbl : List LPPRG) (j : Nat) (blk : Block), 0 ≤ i →
      i + bs.length ≤ tbl.length → bs.get? j = some blk →
      get_at (fill_records E rb i bs tbl) (i + j) = some (blk.record E rb) := by
  intro bs
  induction bs with
  | nil => intro i tbl j blk _ _ h; simp at h
  | cons b0 bs ih =>
    intro i tbl j blk h0 hlen hj
    have hlen1 : i + ((bs.length : Int) + 1) ≤ tbl.length := by simpa using hlen
    rw [fill_records]
    cases j with
    | zero =>
      simp only [List.get?_cons_zero, Option.some.injEq] at hj
      subst hj
      rw [get_at_fill_records_lt E rb bs (i + 1) _ (i + (0 : Nat)) (by omega) (by simp)]
      simp only [Nat.cast_zero, add_zero]
      exact get_at_set_self tbl i _ h0 (by omega)
    | succ j =>
      simp only [List.get?_cons_succ] at hj
      have := ih (i + 1) (tbl.set i.toNat (b0.record E rb)) j blk (by omega)
        (by rw [List.length_set]; omega) hj
      rw [← this]
      congr 1
      push_cast
      ring

theorem store_frame {α : Type} (p : Option (List α)) (i : Int) (a : α) (t : List α)
    (h : store p i a = some t) (j : Int) (hj : j ≠ i) : load (some t) j = load p j := by
  cases p with
  | none => cases h
  | some l =>
    simp only [store, set_at] at h
    split at h
    · rename_i hi
      cases h
      exact get_at_set_other l i j a hi.1 (fun e => hj e.symm)
    · cases h

/-- The loop of `direct_import` leaves alone `rou_begin`, `gbl`,
`lpg.avail` and every loop record below the position it starts at. -/
theorem import_loop_frame (E : Ext) :
    ∀ (k : Nat) (i : Int) (direct : DIRECT) (n : Int) (f : FILE) (r : Import),
      import_loop E k i direct n f = some r →
      r.direct.rou_begin = direct.rou_begin ∧ r.direct.gbl = direct.gbl ∧
        r.direct.lpg.avail = direct.lpg.avail ∧
        ∀ j : Int, j < i → load r.direct.lpg.stgb j = load direct.lpg.stgb j := by
  intro k
  induction k with
  | zero =>
    intro i direct n f r h
    rw [import_loop] at h
    cases h
    exact ⟨rfl, rfl, rfl, fun _ _ => rfl⟩
  | succ k ih =>
    intro i direct n f r h
    have triv : ∀ (m : Int) (g : FILE), some (Import.mk m true direct g) = some r →
        r.direct.rou_begin = direct.rou_begin ∧ r.direct.gbl = direct.gbl ∧
        r.direct.lpg.avail = direct.lpg.avail ∧
        ∀ j : Int, j < i → load r.direct.lpg.stgb j = load direct.lpg.stgb j := by
      intro m g e
      cases e
      exact ⟨rfl, rfl, rfl, fun _ _ => rfl⟩
    rw [import_loop] at h
    cases f with
    | nil => exact triv _ _ h
    | cons line f =>
      simp only [read_line] at h
      split at h
      · rename_i idx hidx
        split at h
        · exact triv _ _ h
        · cases f with
          | nil => exact triv _ _ h
          | cons line2 f2 =>
            simp only at h
            split at h
            · exact triv _ _ h
            · split at h
              · cases h
              · rename_i lp hlp
                split at h
                · split at h
                  · cases h
                  · rename_i t ht
                    cases h
                    exact ⟨rfl, rfl, rfl, fun j hj => store_frame _ _ _ _ ht j (by omega)⟩
                · split at h
                  · cases h
                  · rename_i rd hrd
                    split at h
                    · cases h
                    · rename_i t ht
                      split at h
                      · cases h
                        exact ⟨rfl, rfl, rfl, fun j hj => store_frame _ _ _ _ ht j (by omega)⟩
                      · obtain ⟨a1, a2, a3, a4⟩ := ih _ _ _ _ _ h
                        refine ⟨a1, a2, a3, fun j hj => ?_⟩
                        rw [a4 j (by omega)]
                        exact store_frame _ _ _ _ ht j (by omega)
      · exact triv _ _ h

/-- The loop-record table after `NEEDB(avail, ..., avail + 8)`: it has room
for `n` records, and `size` is its length again. -/
theorem NEEDB_table (fresh : Nat → LPPRG) (n : Int) (lpg : LPG) (tbl : List LPPRG)
    (htbl : lpg.stgb = some tbl) (hsize : (tbl.length : Int) = lpg.size) :
    ∃ tbl1, (NEEDB fresh n lpg (n + 8)).stgb = some tbl1 ∧ n ≤ tbl1.length ∧
      (NEEDB fresh n lpg (n + 8)).avail = lpg.avail ∧
      (tbl1.length : Int) = (NEEDB fresh n lpg (n + 8)).size := by
  unfold NEEDB
  by_cases h : n > lpg.size
  · rw [if_pos h]
    refine ⟨_, rfl, ?_, rfl, ?_⟩
    · simp only [List.length_map, List.length_range]
      omega
    · simp only [List.length_map, List.length_range]
      omega
  · rw [if_neg h]
    exact ⟨tbl, htbl, by omega, rfl, hsize⟩

/-- The run of `direct_import` over the header, the routine block and consecutive
well-formed loop blocks: it reaches the loop pass behind them with
`lpg.avail` read from the header, `rou_begin` equal to the routine block's
lines applied to a copy of `gbl`, and the records of the blocks stored. -/
theorem direct_import_blocks (E : Ext) (nx : Nat) (direct : DIRECT) (tbl1 : List LPPRG)
    (hdr rline : List Char) (R : FILE) (zr : List Char) (bs : List Block) (k : Nat)
    (rest : FILE) (n : Int)
    (htbl1 : (NEEDB E.fresh n { direct.lpg with avail := n } (n + 8)).stgb = some tbl1)
    (hlen1 : n ≤ tbl1.length)
    (hnx : direct.gbl.x.length = nx)
    (hhdr : sscanf hdr "A:%d" = [n]) (hr : line0 rline = 'r')
    (hR : ∀ l ∈ R, directive_line nx l = true) (hz : line0 zr = 'z')
    (hk : bs.length + k = (n - 1).toNat) (hwf : blocks_wf nx 1 bs = true)
    (hov : n ≤ direct.lpg.size ∨ n + 8 ≤ 2147483647) :
    direct_import E direct (hdr :: rline :: (R ++ zr :: (blocks_text bs ++ rest))) =
      import_loop E k (1 + bs.length)
        { direct with
          rou_begin := apply_lines E true direct.gbl R
          lpg := { NEEDB E.fresh n { direct.lpg with avail := n } (n + 8) with
            stgb := some (fill_records E (apply_lines E true direct.gbl R) 1 bs tbl1) } }
        (0 + 1 + 1 + R.length + 1 + (blocks_text bs).length) rest := by
  have hov1 : ¬ (n > direct.lpg.size ∧ n + 8 > 2147483647) := by omega
  have hav : (NEEDB E.fresh n { direct.lpg with avail := n } (n + 8)).avail = n := by
    unfold NEEDB
    split <;> rfl
  have hrd := rd_dir_block E true R zr direct.gbl (0 + 1 + 1) (blocks_text bs ++ rest)
    (by rw [hnx]; exact hR) hz
  have hnx2 : (apply_lines E true direct.gbl R).x.length = nx := by
    rw [(rd_dir_lines E true R direct.gbl 0 [] (by rw [hnx]; exact hR)).2, hnx]
  unfold direct_import
  simp only [read_line, hhdr, hov1, if_false, hr, ne_eq, not_true_eq_false, hrd, hav]
  rw [← hk]
  have hb : bs = [] ∨ (1 : Int) + bs.length ≤ tbl1.length := by
    by_cases hbs : bs = []
    · exact Or.inl hbs
    · right
      have : 0 < bs.length := List.length_pos.mpr hbs
      omega
  have step := import_loop_blocks E nx bs k 1
    { direct with
      rou_begin := apply_lines E true direct.gbl R
      lpg := NEEDB E.fresh n { direct.lpg with avail := n } (n + 8) }
    tbl1 (0 + 1 + 1 + R.length + 1) rest htbl1 (by norm_num) hb hnx2 hwf
  simp only [hav] at step
  exact step

/-- C4. Delta encoding in `direct_import`: for every well-formed stream (a
header `A:n`, the routine block `r`, `R`, `z`, and the loop blocks 1 to
`n - 1`), `direct_import` succeeds having counted every line; `lpg.avail` is
`n`; `rou_begin` is the result of applying the lines of `R` in order to a
copy of `direct.gbl`; and for every `i` in `1..n-1` loop record `i` has the
`b:` and `e:` values of block `i` as `beg_line` and `end_line` and, as
directive set, the result of applying the lines of block `i` in order to a
copy of that final `rou_begin`.  A block without directive lines gives a
directive set equal to `rou_begin`. -/
theorem C4_delta_encoding (E : Ext) (nx : Nat) (direct : DIRECT) (tbl : List LPPRG)
    (hdr rline : List Char) (R : FILE) (zr : List Char) (bs : List Block) (n : Int)
    (htbl : direct.lpg.stgb = some tbl) (hsize : (tbl.length : Int) = direct.lpg.size)
    (hnx : direct.gbl.x.length = nx)
    (hhdr : sscanf hdr "A:%d" = [n]) (hr : line0 rline = 'r')
    (hR : ∀ l ∈ R, directive_line nx l = true) (hz : line0 zr = 'z')
    (hk : bs.length = (n - 1).toNat) (hwf : blocks_wf nx 1 bs = true)
    (hov : n ≤ direct.lpg.size ∨ n + 8 ≤ 2147483647) :
    ∃ r, direct_import E direct (hdr :: rline :: (R ++ zr :: blocks_text bs)) = some r ∧
      r.err = false ∧
      r.ret = (hdr :: rline :: (R ++ zr :: blocks_text bs)).length ∧
      r.dirfil = [] ∧
      r.direct.lpg.avail = n ∧
      r.direct.rou_begin = apply_lines E true direct.gbl R ∧
      r.direct.gbl = direct.gbl ∧
      ∀ (j : Nat) (blk : Block), bs.get? j = some blk →
        load r.direct.lpg.stgb (1 + j) =
            some ⟨blk.b_val, blk.e_val, apply_lines E false r.direct.rou_begin blk.lines⟩ ∧
          (blk.lines = [] →
            load r.direct.lpg.stgb (1 + j) = some ⟨blk.b_val, blk.e_val, r.direct.rou_begin⟩) := by
  obtain ⟨tbl1, htbl1, hlen1, -, -⟩ :=
    NEEDB_table E.fresh n { direct.lpg with avail := n } tbl htbl hsize
  have himp := direct_import_blocks E nx direct tbl1 hdr rline R zr bs 0 [] n htbl1 hlen1 hnx
    hhdr hr hR hz (by simpa using hk) hwf hov
  rw [List.append_nil, import_loop] at himp
  refine ⟨_, himp, rfl, ?_, rfl, ?_, rfl, rfl, ?_⟩
  · simp only [List.length_cons, List.length_append]
    push_cast
    ring
  · show (NEEDB E.fresh n { direct.lpg with avail := n } (n + 8)).avail = n
    unfold NEEDB
    split <;> rfl
  · intro j blk hj
    have hjlt : j < bs.length := by
      by_contra hc
      rw [List.get?_eq_none.mpr (by omega)] at hj
      cases hj
    have hrec := get_at_fill_records E (apply_lines E true direct.gbl R) bs 1 tbl1 j blk
      (by norm_num) (by omega) hj
    have hload : load (some (fill_records E (apply_lines E true direct.gbl R) 1 bs tbl1))
        (1 + j) = some ⟨blk.b_val, blk.e_val,
          apply_lines E false (apply_lines E true direct.gbl R) blk.lines⟩ := hrec
    refine ⟨hload, fun hl => ?_⟩
    rw [hl] at hload
    exact hload

/-- Witness of C4: the stream `A:2`, `r`, `o:ff 01`, `z`, `1: `, `b:5 e:10`,
`v:4 4`, `z` read into `direct_nested` gives `lpg.avail = 2`,
`rou_begin.opt = 1` and record 1 with lines 5 to 10, `opt = 1` and
`vect = gbl.vect | 4`. -/
theorem C4_delta_encoding_witness :
    ∃ r, direct_import ext_sample direct_nested
        (fopen "A:2\nr\no:ff 01\nz\n1: \nb:5 e:10\nv:4 4\nz\n") = some r ∧
      r.err = false ∧ r.ret = 8 ∧ r.direct.lpg.avail = 2 ∧
      r.direct.rou_begin = { direct_nested.gbl with opt := 1 } ∧
      load r.direct.lpg.stgb 1 =
        some ⟨5, 10, { direct_nested.gbl with opt := 1, vect := bor direct_nested.gbl.vect 4 }⟩ := by
  obtain ⟨r, h1, h2, h3, -, h5, h6, -, h8⟩ :=
    C4_delta_encoding ext_sample 128 direct_nested
      [lpprg_zero,
        { beg_line := 10, end_line := -1, dirset := { dirset_sample with opt := 1, depchk := 0 } },
        { beg_line := 20, end_line := -1, dirset := { dirset_sample with opt := 0, vect := 5 } },
        lpprg_zero]
      "A:2\n".toList "r\n".toList ["o:ff 01\n".toList] "z\n".toList [block_sample] 2
      rfl (by decide) (by decide) (by decide) (by decide) (by decide) (by decide) (by decide)
      (by decide) (by decide)
  refine ⟨r, h1, h2, h3, h5, ?_, ?_⟩
  · rw [h6]
    decide
  · have := (h8 0 block_sample rfl).1
    rw [h6] at this
    rw [show (1 : Int) = 1 + ((0 : Nat) : Int) by norm_num, this]
    decide

/-! ### Truncated streams -/

/-- A pass of the loop of `direct_import` over a loop block that the end of
the stream cuts short before its `z` line: the error path, with every line
of the block and the failed read counted. -/
theorem import_loop_truncated (E : Ext) (nx : Nat) (k : Nat) (i : Int) (direct : DIRECT)
    (tbl : List LPPRG) (n : Int) (idx be : List Char) (b e : Int) (L : FILE)
    (htbl : direct.lpg.stgb = some tbl) (h0 : 0 ≤ i) (h1 : i < tbl.length)
    (hnx : direct.rou_begin.x.length = nx)
    (hidx : sscanf idx "%d: " = [i]) (hbe : sscanf be "b:%d e:%d" = [b, e])
    (hL : ∀ l ∈ L, directive_line nx l = true) :
    ∃ r, import_loop E (k + 1) i direct n (idx :: be :: L) = some r ∧ r.err = true ∧
      r.ret = n + (idx :: be :: L).length + 1 := by
  obtain ⟨lp, hlp⟩ := get_at_of_lt tbl i h0 h1
  have hrd := rd_dir_truncated E false L direct.rou_begin (n + 1 + 1) (by rw [hnx]; exact hL)
  rw [import_loop]
  simp only [read_line, hidx, hbe, ne_eq, not_true_eq_false, if_false, load, htbl, hlp,
    List.length_cons, List.length_nil, assign_b_e, hrd, store,
    set_at_some tbl i _ h0 h1, List.cons_ne_nil]
  simp only [zero_add, Nat.reduceAdd, ne_eq, not_true_eq_false, if_false, one_ne_zero,
    not_false_eq_true, if_true]
  refine ⟨_, rfl, rfl, ?_⟩
  push_cast
  ring

/-- C8, counterexample.  The stream `A:1`, `r`, `o:ff 01` has 3 lines and
ends before the `z` of the routine block: `direct_import` returns 4.  The
stream with the `z` line added is imported with success and also returns
4. -/
theorem C8_truncated_counterexample :
    (fopen "A:1\nr\no:ff 01\n").length = 3 ∧
    (direct_import ext_sample direct_nested (fopen "A:1\nr\no:ff 01\n")).map
        (fun r => (r.ret, r.err)) = some (4, true) ∧
    (direct_import ext_sample direct_nested (fopen "A:1\nr\no:ff 01\nz\n")).map
        (fun r => (r.ret, r.err)) = some (4, false) := by
  decide

/-- C8, amended.  Truncated stream in `direct_import`: for every stream that
ends before the `z` terminator of a directive block (of the routine block, or
of a loop block that follows well-formed ones), all lines present being well
formed, `direct_import` takes its error path (it prints `DIRECTIVES error`)
and returns the number of lines present in the stream plus one: the read that
meets the end of the stream is counted as well.  The value returned is that
count alone. -/
theorem C8_truncated_amended (E : Ext) (nx : Nat) (direct : DIRECT) (tbl : List LPPRG)
    (hdr rline : List Char) (R : FILE) (n : Int)
    (htbl : direct.lpg.stgb = some tbl) (hsize : (tbl.length : Int) = direct.lpg.size)
    (hnx : direct.gbl.x.length = nx)
    (hhdr : sscanf hdr "A:%d" = [n]) (hr : line0 rline = 'r')
    (hR : ∀ l ∈ R, directive_line nx l = true)
    (hov : n ≤ direct.lpg.size ∨ n + 8 ≤ 2147483647) :
    (∃ r, direct_import E direct (hdr :: rline :: R) = some r ∧ r.err = true ∧
      r.ret = (hdr :: rline :: R).length + 1) ∧
    (∀ (zr : List Char) (bs : List Block) (idx be : List Char) (b e : Int) (L : FILE),
      line0 zr = 'z' → blocks_wf nx 1 bs = true → (bs.length : Int) + 1 < n →
      sscanf idx "%d: " = [1 + bs.length] → sscanf be "b:%d e:%d" = [b, e] →
      (∀ l ∈ L, directive_line nx l = true) →
      ∃ r, direct_import E direct
          (hdr :: rline :: (R ++ zr :: (blocks_text bs ++ idx :: be :: L))) = some r ∧
        r.err = true ∧
        r.ret = (hdr :: rline :: (R ++ zr :: (blocks_text bs ++ idx :: be :: L))).length + 1) := by
  have hov1 : ¬ (n > direct.lpg.size ∧ n + 8 > 2147483647) := by omega
  constructor
  · have hrd := rd_dir_truncated E true R direct.gbl (0 + 1 + 1) (by rw [hnx]; exact hR)
    unfold direct_import
    simp only [read_line, hhdr, hov1, if_false, hr, ne_eq, not_true_eq_false, hrd]
    simp only [one_ne_zero, not_false_eq_true, if_true]
    refine ⟨_, rfl, rfl, ?_⟩
    simp only [List.length_cons]
    push_cast
    ring
  · intro zr bs idx be b e L hz hwf hlt hidx hbe hL
    obtain ⟨tbl1, htbl1, hlen1, -, -⟩ :=
      NEEDB_table E.fresh n { direct.lpg with avail := n } tbl htbl hsize
    have hk : bs.length + (((n - 1).toNat - bs.length - 1) + 1) = (n - 1).toNat := by omega
    have himp := direct_import_blocks E nx direct tbl1 hdr rline R zr bs _ (idx :: be :: L) n
      htbl1 hlen1 hnx hhdr hr hR hz hk hwf hov
    have hnx2 : (apply_lines E true direct.gbl R).x.length = nx := by
      rw [(rd_dir_lines E true R direct.gbl 0 [] (by rw [hnx]; exact hR)).2, hnx]
    obtain ⟨r, hr1, hr2, hr3⟩ := import_loop_truncated E nx ((n - 1).toNat - bs.length - 1)
      (1 + bs.length)
      { direct with
        rou_begin := apply_lines E true direct.gbl R
        lpg := { NEEDB E.fresh n { direct.lpg with avail := n } (n + 8) with
          stgb := some (fill_records E (apply_lines E true direct.gbl R) 1 bs tbl1) } }
      (fill_records E (apply_lines E true direct.gbl R) 1 bs tbl1)
      (0 + 1 + 1 + R.length + 1 + (blocks_text bs).length) idx be b e L rfl (by omega)
      (by rw [fill_records_length]; omega) hnx2 hidx hbe hL
    refine ⟨r, himp.trans hr1, hr2, ?_⟩
    rw [hr3]
    simp only [List.length_cons, List.length_append]
    push_cast
    ring

/-- Witness of C8 as amended: the stream cut before the `z` of the routine
block, and the stream cut before the `z` of loop block 1. -/
theorem C8_truncated_amended_witness :
    (∃ r, direct_import ext_sample direct_nested (fopen "A:2\nr\no:ff 01\n") = some r ∧
      r.err = true ∧ r.ret = (3 : Nat) + 1) ∧
    (∃ r, direct_import ext_sample direct_nested
        (fopen "A:2\nr\no:ff 01\nz\n1: \nb:5 e:10\nv:4 4\n") = some r ∧
      r.err = true ∧ r.ret = (7 : Nat) + 1) :=
  ⟨(C8_truncated_amended ext_sample 128 direct_nested
      [lpprg_zero,
        { beg_line := 10, end_line := -1, dirset := { dirset_sample with opt := 1, depchk := 0 } },
        { beg_line := 20, end_line := -1, dirset := { dirset_sample with opt := 0, vect := 5 } },
        lpprg_zero]
      "A:2\n".toList "r\n".toList ["o:ff 01\n".toList] 2
      rfl (by decide) (by decide) (by decide) (by decide) (by decide) (by decide)).1,
   (C8_truncated_amended ext_sample 128 direct_nested
      [lpprg_zero,
        { beg_line := 10, end_line := -1, dirset := { dirset_sample with opt := 1, depchk := 0 } },
        { beg_line := 20, end_line := -1, dirset := { dirset_sample with opt := 0, vect := 5 } },
        lpprg_zero]
      "A:2\n".toList "r\n".toList ["o:ff 01\n".toList] 2
      rfl (by decide) (by decide) (by decide) (by decide) (by decide) (by decide)).2
      "z\n".toList [] "1: \n".toList "b:5 e:10\n".toList 5 10 ["v:4 4\n".toList]
      (by decide) (by decide) (by decide) (by decide) (by decide) (by decide)⟩

/-! ### No rollback -/

/-- C9. No rollback in `direct_import`: take a stream whose header and
routine block are well formed and whose loop blocks `1..k-1` are well formed
(`bs`), followed by anything (`rest1`: a block `k` with a wrong leading
character, a field-count mismatch, a loop index that is not its position, or
the end of the stream), and the same stream with another continuation
(`rest2`: the malformed block repaired).  After `direct_import`, aborted or
not, `rou_begin` and the loop records `1..k-1` (`beg_line`, `end_line` and
directive set) are the same for both streams, and they are what the routine
block and the blocks `1..k-1` describe: nothing filled before the error is
undone or altered. -/
theorem C9_no_rollback (E : Ext) (nx : Nat) (direct : DIRECT) (tbl : List LPPRG)
    (hdr rline : List Char) (R : FILE) (zr : List Char) (bs : List Block) (n : Int)
    (rest1 rest2 : FILE) (r1 r2 : Import)
    (htbl : direct.lpg.stgb = some tbl) (hsize : (tbl.length : Int) = direct.lpg.size)
    (hnx : direct.gbl.x.length = nx)
    (hhdr : sscanf hdr "A:%d" = [n]) (hr : line0 rline = 'r')
    (hR : ∀ l ∈ R, directive_line nx l = true) (hz : line0 zr = 'z')
    (hk : bs.length ≤ (n - 1).toNat) (hwf : blocks_wf nx 1 bs = true)
    (hov : n ≤ direct.lpg.size ∨ n + 8 ≤ 2147483647)
    (h1 : direct_import E direct (hdr :: rline :: (R ++ zr :: (blocks_text bs ++ rest1)))
      = some r1)
    (h2 : direct_import E direct (hdr :: rline :: (R ++ zr :: (blocks_text bs ++ rest2)))
      = some r2) :
    r1.direct.rou_begin = r2.direct.rou_begin ∧
    r1.direct.rou_begin = apply_lines E true direct.gbl R ∧
    ∀ (j : Nat) (blk : Block), bs.get? j = some blk →
      load r1.direct.lpg.stgb (1 + j) = load r2.direct.lpg.stgb (1 + j) ∧
      load r1.direct.lpg.stgb (1 + j) =
        some ⟨blk.b_val, blk.e_val, apply_lines E false r1.direct.rou_begin blk.lines⟩ := by
  obtain ⟨tbl1, htbl1, hlen1, -, -⟩ :=
    NEEDB_table E.fresh n { direct.lpg with avail := n } tbl htbl hsize
  have hk1 : bs.length + ((n - 1).toNat - bs.length) = (n - 1).toNat := by omega
  have himp1 := direct_import_blocks E nx direct tbl1 hdr rline R zr bs _ rest1 n
    htbl1 hlen1 hnx hhdr hr hR hz hk1 hwf hov
  have himp2 := direct_import_blocks E nx direct tbl1 hdr rline R zr bs _ rest2 n
    htbl1 hlen1 hnx hhdr hr hR hz hk1 hwf hov
  rw [himp1] at h1
  rw [himp2] at h2
  obtain ⟨a1, -, -, a4⟩ := import_loop_frame E _ _ _ _ _ _ h1
  obtain ⟨b1, -, -, b4⟩ := import_loop_frame E _ _ _ _ _ _ h2
  refine ⟨a1.trans b1.symm, a1, ?_⟩
  intro j blk hj
  have hjlt : j < bs.length := by
    by_contra hc
    rw [List.get?_eq_none.mpr (by omega)] at hj
    cases hj
  have hrec := get_at_fill_records E (apply_lines E true direct.gbl R) bs 1 tbl1 j blk
    (by norm_num) (by omega) hj
  have e1 := a4 (1 + j) (by omega)
  have e2 := b4 (1 + j) (by omega)
  refine ⟨e1.trans e2.symm, ?_⟩
  rw [e1, a1]
  exact hrec

/-- Witness of C9: after the routine block `o:ff 01` and loop block 1 of
`block_sample`, a second block with a wrong leading character (`q:1 1`), and
the same block repaired (`o:1 1`).  The first import aborts, the second
succeeds. -/
theorem C9_no_rollback_witness :
    ∃ r1 r2,
      direct_import ext_sample direct_nested
        (fopen "A:3\nr\no:ff 01\nz\n1: \nb:5 e:10\nv:4 4\nz\n2: \nb:7 e:9\nq:1 1\nz\n")
        = some r1 ∧ r1.err = true ∧
      direct_import ext_sample direct_nested
        (fopen "A:3\nr\no:ff 01\nz\n1: \nb:5 e:10\nv:4 4\nz\n2: \nb:7 e:9\no:1 1\nz\n")
        = some r2 ∧ r2.err = false ∧
      r1.direct.rou_begin = r2.direct.rou_begin ∧
      load r1.direct.lpg.stgb 1 = load r2.direct.lpg.stgb 1 ∧
      load r1.direct.lpg.stgb 1 =
        some ⟨5, 10, apply_lines ext_sample false r1.direct.rou_begin ["v:4 4\n".toList]⟩ := by
  have s1 : ((direct_import ext_sample direct_nested
      (fopen "A:3\nr\no:ff 01\nz\n1: \nb:5 e:10\nv:4 4\nz\n2: \nb:7 e:9\nq:1 1\nz\n")).map
        (fun r => r.err)) = some true := by decide
  have s2 : ((direct_import ext_sample direct_nested
      (fopen "A:3\nr\no:ff 01\nz\n1: \nb:5 e:10\nv:4 4\nz\n2: \nb:7 e:9\no:1 1\nz\n")).map
        (fun r => r.err)) = some false := by decide
  obtain ⟨r1, h1, e1⟩ := Option.map_eq_some'.mp s1
  obtain ⟨r2, h2, e2⟩ := Option.map_eq_some'.mp s2
  have key := C9_no_rollback ext_sample 128 direct_nested
    [lpprg_zero,
      { beg_line := 10, end_line := -1, dirset := { dirset_sample with opt := 1, depchk := 0 } },
      { beg_line := 20, end_line := -1, dirset := { dirset_sample with opt := 0, vect := 5 } },
      lpprg_zero]
    "A:3\n".toList "r\n".toList ["o:ff 01\n".toList] "z\n".toList [block_sample] 3
    (fopen "2: \nb:7 e:9\nq:1 1\nz\n") (fopen "2: \nb:7 e:9\no:1 1\nz\n") r1 r2
    rfl (by decide) (by decide) (by decide) (by decide) (by decide) (by decide) (by decide)
    (by decide) (by decide) h1 h2
  have k0 := key.2.2 0 block_sample rfl
  exact ⟨r1, r2, h1, e1, h2, e2, key.1, k0.1, k0.2⟩

/-! ### Override mirroring and the downgrades of `direct_rou_load` -/

theorem eq_set_of_keeps (l l1 : List Int) (i : Nat) (w : Int) (hlen : l1.length = l.length)
    (hoth : ∀ j : Nat, j ≠ i → l1.get? j = l.get? j) (hw : l1.get? i = some w) :
    l1 = l.set i w := by
  apply List.ext_get?
  intro j
  by_cases hj : j = i
  · subst hj
    have hlt : j < l.length := by
      by_contra hc
      rw [List.get?_eq_none.mpr (by omega)] at hw
      cases hw
    rw [hw]
    simp [List.get?_eq_getElem?, List.getElem?_set_self, hlt]
  · rw [hoth j hj]
    simp only [List.get?_eq_getElem?]
    rw [List.getElem?_set_ne (fun h => hj h.symm)]

/-- The walk over an override list, for a setter that keeps the other
switches: it only changes switches, every matching record names a switch of
the bank, and banks that agree before the walk agree after it. -/
theorem apply_xf_mirror (sf : FLG → Int → Int → FLG) (hsf : keeps_other_switches sf)
    (f : String) :
    ∀ (xs : List XF) (flg : FLG) (cur : DIRSET) (flg1 : FLG) (cur1 : DIRSET),
      apply_xf sf f xs flg cur = some (flg1, cur1) →
      cur1.x.length = cur.x.length ∧ cur1.opt = cur.opt ∧ cur1.vect = cur.vect ∧
        cur1.depchk = cur.depchk ∧ cur1.tpvalue = cur.tpvalue ∧
        (∀ r ∈ xs, r.fn = f → 0 ≤ r.x ∧ r.x < cur.x.length) ∧
        (flg.x = cur.x → flg1.x = cur1.x) := by
  intro xs
  induction xs with
  | nil =>
    intro flg cur flg1 cur1 h
    rw [apply_xf] at h
    cases h
    exact ⟨rfl, rfl, rfl, rfl, rfl, fun r hr => absurd hr (List.not_mem_nil r), fun e => e⟩
  | cons r next ih =>
    intro flg cur flg1 cur1 h
    rw [apply_xf] at h
    by_cases hf : r.fn = f
    · simp only [hf, if_true] at h
      split at h
      · cases h
      · rename_i w hw
        split at h
        · cases h
        · rename_i x1 hx1
          have hb : 0 ≤ r.x ∧ r.x.toNat < cur.x.length := by
            unfold set_at at hx1
            split at hx1
            · assumption
            · cases hx1
          have hx1e : x1 = cur.x.set r.x.toNat w := by
            unfold set_at at hx1
            rw [if_pos hb] at hx1
            cases hx1
            rfl
          obtain ⟨a1, a2, a3, a4, a5, a6, a7⟩ := ih _ _ _ _ h
          simp only [hx1e, List.length_set] at a1 a6
          refine ⟨a1, a2, a3, a4, a5, ?_, ?_⟩
          · intro r1 hr1 hf1
            rcases List.mem_cons.mp hr1 with e | e
            · subst e
              exact ⟨hb.1, by omega⟩
            · exact a6 r1 e hf1
          · intro hagree
            apply a7
            show (sf flg r.x r.v).x = x1
            rw [hx1e, ← hagree]
            have hw2 : (sf flg r.x r.v).x.get? r.x.toNat = some w := by
              unfold get_at at hw
              rw [if_pos hb.1] at hw
              exact hw
            exact eq_set_of_keeps flg.x _ r.x.toNat w (hsf flg r.x r.v).1
              (fun j hj => (hsf flg r.x r.v).2 j (by omega)) hw2
    · simp only [hf, if_false] at h
      obtain ⟨a1, a2, a3, a4, a5, a6, a7⟩ := ih _ _ _ _ h
      refine ⟨a1, a2, a3, a4, a5, ?_, a7⟩
      intro r1 hr1 hf1
      rcases List.mem_cons.mp hr1 with e | e
      · subst e
        exact absurd hf1 hf
      · exact a6 r1 e hf1

/-- Records whose name does not match are passed over by the walk. -/
theorem apply_xf_filter (sf : FLG → Int → Int → FLG) (f : String) :
    ∀ (xs : List XF) (flg : FLG) (cur : DIRSET),
      apply_xf sf f (xs.filter (fun r => decide (r.fn = f))) flg cur =
        apply_xf sf f xs flg cur := by
  intro xs
  induction xs with
  | nil => intro flg cur; rfl
  | cons r next ih =>
    intro flg cur
    by_cases hf : r.fn = f
    · rw [List.filter_cons_of_pos (by simpa using hf), apply_xf, apply_xf]
      simp only [hf, if_true]
      split
      · rfl
      · split
        · rfl
        · exact ih _ _
    · rw [List.filter_cons_of_neg (by simpa using hf), ih flg cur]
      conv => rhs; rw [apply_xf]
      simp only [hf, if_false]

/-- What a call of `direct_rou_load` that returns has done: both walks
succeeded, `rou_begin.x` is `currdir->x` as the walks left it, `flg.x` is the
bank as the walks left it with `flg.x[8] |= 0x8` applied when `gbl.vfrets` is
set, and `opt` and `vect` are forced to 1 and 0 exactly when the routine has
one of the two constructs and `flg.opt >= 2` after the walks. -/
theorem direct_rou_load_inv (E : Ext) (gbl : GBL) (g g1 : Globals)
    (h : direct_rou_load E gbl g = some g1) :
    ∃ flg1 cur1 flg2 cur2,
      apply_xf E.set_xflag gbl.currsub g.xf_p (load_dirset g.flg g.direct.rou_begin)
        g.direct.rou_begin = some (flg1, cur1) ∧
      apply_xf E.set_yflag gbl.currsub g.yf_p flg1 cur1 = some (flg2, cur2) ∧
      g1.direct.rou_begin.x = cur2.x ∧
      (gbl.vfrets = 0 → g1.flg.x = flg2.x) ∧
      (gbl.vfrets ≠ 0 → ∃ w, get_at flg2.x 8 = some w ∧ g1.flg.x = flg2.x.set 8 (bor w 8)) ∧
      ((gbl.asgnlbls = -1 ∨ gbl.vfrets ≠ 0) ∧ 2 ≤ flg2.opt →
        g1.flg.opt = 1 ∧ g1.flg.vect = 0 ∧
        g1.direct.rou_begin.opt = 1 ∧ g1.direct.rou_begin.vect = 0) ∧
      (¬ ((gbl.asgnlbls = -1 ∨ gbl.vfrets ≠ 0) ∧ 2 ≤ flg2.opt) →
        g1.flg.opt = flg2.opt ∧ g1.flg.vect = flg2.vect ∧
        g1.direct.rou_begin.opt = cur2.opt ∧ g1.direct.rou_begin.vect = cur2.vect) := by
  unfold direct_rou_load at h
  simp only at h
  split at h
  · cases h
  · rename_i flg1 cur1 h1
    split at h
    · cases h
    · rename_i flg2 cur2 h2
      refine ⟨flg1, cur1, flg2, cur2, h1, h2, ?_⟩
      rcases htp : get_at cur2.tpvalue
          (if gbl.multiversion = 0 then 0 else gbl.multiversion - 1) with _ | tp
      · by_cases hv : gbl.vfrets = 0
        · by_cases ha : gbl.asgnlbls = -1 <;> by_cases ho : 2 ≤ flg2.opt <;>
            simp [hv, ha, ho, htp] at h
        · rcases hw : get_at flg2.x 8 with _ | w <;>
            by_cases ha : gbl.asgnlbls = -1 <;> by_cases ho : 2 ≤ flg2.opt <;>
            simp [hv, ha, ho, htp, hw] at h
      · by_cases hv : gbl.vfrets = 0
        · by_cases ha : gbl.asgnlbls = -1 <;> by_cases ho : 2 ≤ flg2.opt <;>
            simp [hv, ha, ho, htp] at h <;> subst h <;> simp [hv, ha, ho]
        · rcases hw : get_at flg2.x 8 with _ | w
          · by_cases ha : gbl.asgnlbls = -1 <;> by_cases ho : 2 ≤ flg2.opt <;>
              simp [hv, ha, ho, htp, hw] at h
          · by_cases ha : gbl.asgnlbls = -1 <;> by_cases ho : 2 ≤ flg2.opt <;>
              simp [hv, ha, ho, htp, hw] at h <;> subst h <;> simp [hv, ha, ho]

theorem get_at_lt {α : Type} (l : List α) (i : Int) (a : α) (h : get_at l i = some a) :
    0 ≤ i ∧ i < l.length := by
  unfold get_at at h
  split at h
  · rename_i h0
    have : i.toNat < l.length := by
      by_contra hc
      rw [List.get?_eq_none.mpr (by omega)] at h
      cases h
    omega
  · cases h

theorem bor_band_self (w m : Int) (hm : isInt32 m) : band (bor w m) m = m := by
  unfold band
  rw [toU32_bor]
  have : (toU32 w ||| toU32 m) &&& toU32 m = toU32 m := by
    apply Nat.eq_of_testBit_eq
    intro i
    simp only [Nat.testBit_and, Nat.testBit_or]
    cases (toU32 w).testBit i <;> cases (toU32 m).testBit i <;> rfl
  rw [this, ofU32_toU32 m hm]

theorem keeps_set_flag_overwrite : keeps_other_switches set_flag_overwrite := by
  intro flg x v
  unfold set_flag_overwrite set_at
  split
  · rename_i l hl
    split at hl
    · rename_i hb
      cases hl
      refine ⟨by simp, fun j hj => ?_⟩
      simp only [List.get?_eq_getElem?]
      rw [List.getElem?_set_ne (by omega)]
    · cases hl
  · exact ⟨rfl, fun _ _ => rfl⟩

/-- C11, counterexample.  For the routine `f` with variable-format returns
(`gbl.vfrets` set) and the one override record `(f, 8, 0)`, after
`direct_rou_load` switch 8 is 0 in `direct.rou_begin` and 8 in `flg`. -/
theorem C11_override_mirroring_counterexample :
    globals_switch8.xf_p = [⟨"f", 8, 0⟩] ∧
    (direct_rou_load ext_sample ⟨"f", 0, 1, 0⟩ globals_switch8).map
        (fun g => (get_at g.direct.rou_begin.x 8, get_at g.flg.x 8))
      = some (some 0, some 8) := by
  decide

/-- C11, amended.  Override mirroring: when `direct_rou_load` returns, for
every override record, in either list, whose function name equals the
routine's name, `rou_begin.x[record.x]` equals `flg.x[record.x]`, except for
switch 8 of a routine with variable-format returns (`gbl.vfrets` set): there
`flg.x[8]` is `rou_begin.x[8]` with bit `0x8` or-ed in.  Records whose name
does not match cause no change: without them the call gives the same `flg`
and `direct`.  (`set_xflag` and `set_yflag` are taken to leave the switches
they are not called for alone.) -/
theorem C11_override_mirroring_amended (E : Ext) (gbl : GBL) (g g1 : Globals)
    (hx : keeps_other_switches E.set_xflag) (hy : keeps_other_switches E.set_yflag)
    (hret : direct_rou_load E gbl g = some g1) :
    (∀ r, r ∈ g.xf_p ∨ r ∈ g.yf_p → r.fn = gbl.currsub → (gbl.vfrets = 0 ∨ r.x ≠ 8) →
      ∃ w, get_at g1.direct.rou_begin.x r.x = some w ∧ get_at g1.flg.x r.x = some w) ∧
    (gbl.vfrets ≠ 0 →
      ∃ w, get_at g1.direct.rou_begin.x 8 = some w ∧ get_at g1.flg.x 8 = some (bor w 8)) ∧
    (direct_rou_load E gbl
        { g with
          xf_p := g.xf_p.filter (fun r => decide (r.fn = gbl.currsub))
          yf_p := g.yf_p.filter (fun r => decide (r.fn = gbl.currsub)) }).map
        (fun r => (r.flg, r.direct)) = some (g1.flg, g1.direct) := by
  obtain ⟨flg1, cur1, flg2, cur2, h1, h2, hrb, hv0, hv1, -, -⟩ :=
    direct_rou_load_inv E gbl g g1 hret
  obtain ⟨l1, -, -, -, -, b1, m1⟩ := apply_xf_mirror E.set_xflag hx _ _ _ _ _ _ h1
  obtain ⟨l2, -, -, -, -, b2, m2⟩ := apply_xf_mirror E.set_yflag hy _ _ _ _ _ _ h2
  have hagree : flg2.x = cur2.x := m2 (m1 rfl)
  refine ⟨?_, ?_, ?_⟩
  · intro r hr hf hcase
    have hb : 0 ≤ r.x ∧ r.x < cur2.x.length := by
      rcases hr with hr | hr
      · have := b1 r hr hf
        rw [l2, l1]
        exact this
      · have := b2 r hr hf
        rw [l2]
        exact this
    obtain ⟨w, hw⟩ := get_at_of_lt cur2.x r.x hb.1 hb.2
    refine ⟨w, by rw [hrb]; exact hw, ?_⟩
    by_cases hv : gbl.vfrets = 0
    · rw [hv0 hv, hagree]
      exact hw
    · obtain ⟨w8, -, hfl⟩ := hv1 hv
      have h8 : r.x ≠ 8 := by
        rcases hcase with h | h
        · exact absurd h hv
        · exact h
      rw [hfl, hagree]
      have := get_at_set_other cur2.x 8 r.x (bor w8 8) (by norm_num) (fun e => h8 e.symm)
      rw [← hw]
      simpa using this
  · intro hv
    obtain ⟨w8, hw8, hfl⟩ := hv1 hv
    refine ⟨w8, by rw [hrb, ← hagree]; exact hw8, ?_⟩
    rw [hfl]
    have hb := get_at_lt flg2.x 8 w8 hw8
    have := get_at_set_self flg2.x 8 (bor w8 8) hb.1 hb.2
    simpa using this
  · have e : direct_rou_load E gbl
        { g with
          xf_p := g.xf_p.filter (fun r => decide (r.fn = gbl.currsub))
          yf_p := g.yf_p.filter (fun r => decide (r.fn = gbl.currsub)) } =
        (direct_rou_load E gbl g).map (fun r =>
          { r with
            xf_p := g.xf_p.filter (fun r => decide (r.fn = gbl.currsub))
            yf_p := g.yf_p.filter (fun r => decide (r.fn = gbl.currsub)) }) := by
      unfold direct_rou_load
      simp only [apply_xf_filter]
      split
      · rfl
      · split
        · rfl
        · split
          · rfl
          · split
            · rfl
            · rfl
    rw [e, hret]
    rfl

/-- Witness of C11 as amended: the routine `f` with variable-format
returns and the overrides `(f, 3, 7)`, `(f, 3, 9)` of `globals_sample`. -/
theorem C11_override_mirroring_amended_witness :
    ∃ g1, direct_rou_load ext_sample ⟨"f", 0, 1, 0⟩ globals_sample = some g1 ∧
      (∃ w, get_at g1.direct.rou_begin.x 3 = some w ∧ get_at g1.flg.x 3 = some w) ∧
      (∃ w, get_at g1.direct.rou_begin.x 8 = some w ∧ get_at g1.flg.x 8 = some (bor w 8)) := by
  have hs : (direct_rou_load ext_sample ⟨"f", 0, 1, 0⟩ globals_sample).isSome = true := by
    decide
  obtain ⟨g1, h⟩ := Option.isSome_iff_exists.mp hs
  have key := C11_override_mirroring_amended ext_sample ⟨"f", 0, 1, 0⟩ globals_sample g1
    keeps_set_flag_overwrite keeps_set_flag_overwrite h
  exact ⟨g1, h,
    key.1 ⟨"f", 3, 9⟩ (Or.inl (by simp [globals_sample, direct_xf])) rfl (Or.inr (by decide)),
    key.2.1 (by decide)⟩

/-- The walk over an override list leaves `opt` and `vect` of `*currdir`
alone, and those of `flg` too when the setter does. -/
theorem apply_xf_opt_vect (sf : FLG → Int → Int → FLG) (f : String) :
    ∀ (xs : List XF) (flg : FLG) (cur : DIRSET) (flg1 : FLG) (cur1 : DIRSET),
      apply_xf sf f xs flg cur = some (flg1, cur1) →
      cur1.opt = cur.opt ∧ cur1.vect = cur.vect ∧
      ((∀ fl x v, (sf fl x v).opt = fl.opt ∧ (sf fl x v).vect = fl.vect) →
        flg1.opt = flg.opt ∧ flg1.vect = flg.vect) := by
  intro xs
  induction xs with
  | nil =>
    intro flg cur flg1 cur1 h
    rw [apply_xf] at h
    cases h
    exact ⟨rfl, rfl, fun _ => ⟨rfl, rfl⟩⟩
  | cons r next ih =>
    intro flg cur flg1 cur1 h
    rw [apply_xf] at h
    by_cases hf : r.fn = f
    · simp only [hf, if_true] at h
      split at h
      · cases h
      · split at h
        · cases h
        · obtain ⟨a1, a2, a3⟩ := ih _ _ _ _ h
          refine ⟨a1, a2, fun hsf => ?_⟩
          obtain ⟨c1, c2⟩ := a3 hsf
          exact ⟨c1.trans (hsf flg r.x r.v).1, c2.trans (hsf flg r.x r.v).2⟩
    · simp only [hf, if_false] at h
      exact ih _ _ _ _ h

/-- C12. Unsafe-construct downgrade in `direct_rou_load`, for a call that
returns; `flg2` is `flg` after the overrides were applied and `L` is
`flg2.opt`.  For a routine with an assigned goto (`gbl.asgnlbls == -1`) or
variable-format returns (`gbl.vfrets != 0`): if `L >= 2` then afterwards
`opt` is 1 and `vect` is 0 in `flg` and in `rou_begin`; if `L < 2` they are
left as they were.  With `gbl.vfrets` set, bit `0x8` of `flg.x[8]` is set
whatever `L` is.  For a routine with neither construct there is no
downgrade: `opt` and `vect` of `rou_begin` are unchanged and those of `flg`
are as after the overrides, which is as loaded from `rou_begin` when the
switch setters leave `opt` and `vect` alone. -/
theorem C12_unsafe_downgrade (E : Ext) (gbl : GBL) (g g1 : Globals)
    (hret : direct_rou_load E gbl g = some g1) :
    ∃ flg1 cur1 flg2 cur2,
      apply_xf E.set_xflag gbl.currsub g.xf_p (load_dirset g.flg g.direct.rou_begin)
        g.direct.rou_begin = some (flg1, cur1) ∧
      apply_xf E.set_yflag gbl.currsub g.yf_p flg1 cur1 = some (flg2, cur2) ∧
      (gbl.asgnlbls = -1 ∨ gbl.vfrets ≠ 0 → 2 ≤ flg2.opt →
        g1.flg.opt = 1 ∧ g1.flg.vect = 0 ∧
        g1.direct.rou_begin.opt = 1 ∧ g1.direct.rou_begin.vect = 0) ∧
      (gbl.asgnlbls = -1 ∨ gbl.vfrets ≠ 0 → flg2.opt < 2 →
        g1.flg.opt = flg2.opt ∧ g1.flg.vect = flg2.vect ∧
        g1.direct.rou_begin.opt = g.direct.rou_begin.opt ∧
        g1.direct.rou_begin.vect = g.direct.rou_begin.vect) ∧
      (gbl.vfrets ≠ 0 →
        ∃ w, get_at flg2.x 8 = some w ∧ get_at g1.flg.x 8 = some (bor w 8) ∧
          band (bor w 8) 8 = 8) ∧
      (gbl.asgnlbls ≠ -1 → gbl.vfrets = 0 →
        g1.flg.opt = flg2.opt ∧ g1.flg.vect = flg2.vect ∧ g1.flg.x = flg2.x ∧
        g1.direct.rou_begin.opt = g.direct.rou_begin.opt ∧
        g1.direct.rou_begin.vect = g.direct.rou_begin.vect) ∧
      ((∀ fl x v, (E.set_xflag fl x v).opt = fl.opt ∧ (E.set_xflag fl x v).vect = fl.vect) →
        (∀ fl x v, (E.set_yflag fl x v).opt = fl.opt ∧ (E.set_yflag fl x v).vect = fl.vect) →
        flg2.opt = g.direct.rou_begin.opt ∧ flg2.vect = g.direct.rou_begin.vect) := by
  obtain ⟨flg1, cur1, flg2, cur2, h1, h2, -, hv0, hv1, hd, hnd⟩ :=
    direct_rou_load_inv E gbl g g1 hret
  obtain ⟨p1, p2, p3⟩ := apply_xf_opt_vect E.set_xflag _ _ _ _ _ _ h1
  obtain ⟨q1, q2, q3⟩ := apply_xf_opt_vect E.set_yflag _ _ _ _ _ _ h2
  refine ⟨flg1, cur1, flg2, cur2, h1, h2, ?_, ?_, ?_, ?_, ?_⟩
  · intro hc hL
    exact hd ⟨hc, hL⟩
  · intro _ hL
    obtain ⟨a, b, c, d⟩ := hnd (fun h => by omega)
    exact ⟨a, b, by rw [c, q1, p1], by rw [d, q2, p2]⟩
  · intro hv
    obtain ⟨w, hw, hfl⟩ := hv1 hv
    have hb := get_at_lt flg2.x 8 w hw
    refine ⟨w, hw, ?_, bor_band_self w 8 (by decide)⟩
    rw [hfl]
    have := get_at_set_self flg2.x 8 (bor w 8) hb.1 hb.2
    simpa using this
  · intro ha hv
    obtain ⟨a, b, c, d⟩ := hnd (fun h => by
      rcases h.1 with h | h
      · exact ha h
      · exact h hv)
    exact ⟨a, b, hv0 hv, by rw [c, q1, p1], by rw [d, q2, p2]⟩
  · intro hsx hsy
    obtain ⟨a1, a2⟩ := p3 hsx
    obtain ⟨b1, b2⟩ := q3 hsy
    exact ⟨b1.trans a1, b2.trans a2⟩

/-- Witness of C12: the routine `f` of `globals_sample` (`opt` 2, `vect` 3)
with an assigned goto and variable-format returns is brought down to `opt` 1
and `vect` 0, and bit `0x8` of `flg.x[8]` is set. -/
theorem C12_unsafe_downgrade_witness :
    ∃ g1, direct_rou_load ext_sample ⟨"f", -1, 1, 0⟩ globals_sample = some g1 ∧
      g1.flg.opt = 1 ∧ g1.flg.vect = 0 ∧
      g1.direct.rou_begin.opt = 1 ∧ g1.direct.rou_begin.vect = 0 ∧
      get_at g1.flg.x 8 = some 8 := by
  have hs : (direct_rou_load ext_sample ⟨"f", -1, 1, 0⟩ globals_sample).isSome = true := by
    decide
  obtain ⟨g1, h⟩ := Option.isSome_iff_exists.mp hs
  have hx8 : (direct_rou_load ext_sample ⟨"f", -1, 1, 0⟩ globals_sample).map
      (fun g => get_at g.flg.x 8) = some (some 8) := by decide
  rw [h] at hx8
  simp only [Option.map_some', Option.some.injEq] at hx8
  have hsf : ∀ (fl : FLG) (x v : Int), (set_flag_overwrite fl x v).opt = fl.opt ∧
      (set_flag_overwrite fl x v).vect = fl.vect := by
    intro fl x v
    unfold set_flag_overwrite
    split <;> exact ⟨rfl, rfl⟩
  obtain ⟨flg1, cur1, flg2, cur2, -, -, hdown, -, -, -, hL⟩ :=
    C12_unsafe_downgrade ext_sample ⟨"f", -1, 1, 0⟩ globals_sample g1 h
  obtain ⟨e1, -⟩ := hL hsf hsf
  have h2 : 2 ≤ flg2.opt := by rw [e1]; decide
  obtain ⟨a, b, c, d⟩ := hdown (Or.inl rfl) h2
  exact ⟨g1, h, a, b, c, d, hx8⟩

/-! ### `direct_rou_end`, `direct_init`, `store_dirset` and `load_dirset` -/

/-- C13. Postcondition and frame of `direct_rou_end`: afterwards
`direct.loop`, `direct.rou` and `direct.rou_begin` are each equal to
`direct.gbl`, `lpg.avail` is 1 and `carry_fwd` is false; `direct.gbl`,
`loop_flag`, `in_loop`, the loop stack (top, size and entries), the contents
and size of the loop-record table and the directive table are unchanged. -/
theorem C13_rou_end (direct : DIRECT) :
    (direct_rou_end direct).loop = direct.gbl ∧
    (direct_rou_end direct).rou = direct.gbl ∧
    (direct_rou_end direct).rou_begin = direct.gbl ∧
    (direct_rou_end direct).lpg.avail = 1 ∧
    (direct_rou_end direct).carry_fwd = false ∧
    (direct_rou_end direct).gbl = direct.gbl ∧
    (direct_rou_end direct).loop_flag = direct.loop_flag ∧
    (direct_rou_end direct).in_loop = direct.in_loop ∧
    (direct_rou_end direct).lpg_stk = direct.lpg_stk ∧
    (direct_rou_end direct).lpg.stgb = direct.lpg.stgb ∧
    (direct_rou_end direct).lpg.size = direct.lpg.size ∧
    (direct_rou_end direct).stgb = direct.stgb ∧
    (direct_rou_end direct).avail = direct.avail ∧
    (direct_rou_end direct).size = direct.size :=
  ⟨rfl, rfl, rfl, rfl, rfl, rfl, rfl, rfl, rfl, rfl, rfl, rfl, rfl, rfl⟩

theorem bor_band_bnot (w m : Int) : band (bor w m) (bnot m) = band w (bnot m) := by
  unfold band
  rw [toU32_bor, toU32_bnot]
  congr 1
  apply Nat.eq_of_testBit_eq
  intro i
  simp only [Nat.testBit_and, Nat.testBit_or, Nat.testBit_xor, testBit_mask32]
  by_cases hi : i < 32
  · simp only [hi, decide_True]
    cases (toU32 w).testBit i <;> cases (toU32 m).testBit i <;> rfl
  · have hm := testBit_u32_high (toU32 m) i (toU32_lt m) (by omega)
    simp only [hi, decide_False, hm]
    cases (toU32 w).testBit i <;> rfl

/-- C14. Postcondition of `direct_init`, for every switch bank `flg` on
entry (with a switch 8): `flg` on return is `flg` on entry with bit `0x8` of
switch 8 forced on and nothing else changed; `direct.gbl` equals it member by
member; `direct.rou`, `direct.loop` and `direct.rou_begin` are each equal to
`direct.gbl`; `loop_flag`, `in_loop` and `carry_fwd` are false; the
loop-record table has capacity 16, append cursor 1 and an all-zero slot 0;
the loop stack has capacity 8 and depth 0. -/
theorem C14_init (E : Ext) (junk_d : Nat → DIRSET) (junk_s : Nat → LPG_STK) (flg : FLG)
    (direct : DIRECT) (w : Int) (h8 : get_at flg.x 8 = some w) :
    ∃ flg1 d, direct_init E junk_d junk_s flg direct = some (flg1, d) ∧
      flg1 = { flg with x := flg.x.set 8 (bor w 8) } ∧
      band (bor w 8) 8 = 8 ∧ band (bor w 8) (bnot 8) = band w (bnot 8) ∧
      d.gbl.opt = flg1.opt ∧ d.gbl.vect = flg1.vect ∧ d.gbl.depchk = flg1.depchk ∧
      d.gbl.tpvalue = flg1.tpvalue ∧ d.gbl.x = flg1.x ∧
      d.rou = d.gbl ∧ d.loop = d.gbl ∧ d.rou_begin = d.gbl ∧
      d.loop_flag = false ∧ d.in_loop = false ∧ d.carry_fwd = false ∧
      d.lpg.size = 16 ∧ d.lpg.avail = 1 ∧
      (∃ tbl, d.lpg.stgb = some tbl ∧ tbl.length = 16 ∧
        get_at tbl 0 = some (zero_lpprg flg.tpvalue.length flg.x.length)) ∧
      d.lpg_stk.size = 8 ∧ d.lpg_stk.top = 0 ∧
      (∃ stk, d.lpg_stk.stgb = some stk ∧ stk.length = 8) := by
  unfold direct_init
  rw [h8]
  refine ⟨_, _, rfl, rfl, bor_band_self w 8 (by decide), bor_band_bnot w 8, rfl, rfl, rfl,
    rfl, rfl, rfl, rfl, rfl, rfl, rfl, rfl, rfl, rfl, ⟨_, rfl, ?_, ?_⟩, rfl, rfl,
    ⟨_, rfl, ?_⟩⟩
  · simp [NEW]
  · exact get_at_set_self (NEW E.fresh 16) 0 _ (by norm_num) (by simp [NEW])
  · simp [NEW]

/-- Witness of C14: `direct_init` on the bank `flg_sample`. -/
theorem C14_init_witness :
    ∃ flg1 d, direct_init ext_sample (fun _ => dirset_sample) (fun _ => ⟨0⟩) flg_sample
        direct_nested = some (flg1, d) ∧
      get_at flg1.x 8 = some 8 ∧ d.gbl.x = flg1.x ∧ d.rou = d.gbl ∧ d.in_loop = false ∧
      d.lpg.size = 16 ∧ d.lpg.avail = 1 ∧ d.lpg_stk.size = 8 ∧ d.lpg_stk.top = 0 := by
  obtain ⟨flg1, d, h, e, -, -, -, -, -, -, a5, a6, -, -, -, a10, -, a12, a13, -, a15, a16, -⟩ :=
    C14_init ext_sample (fun _ => dirset_sample) (fun _ => ⟨0⟩) flg_sample direct_nested 0
      (by decide)
  refine ⟨flg1, d, h, ?_, a5, a6, a10, a12, a13, a15, a16⟩
  rw [e]
  decide

/-- C15. Round trip of `store_dirset` and `load_dirset`: for every
directive set `d`, `load_dirset(d)` followed by `store_dirset(d1)` makes
`d1` equal to `d` in every member (`depchk`, `opt`, `vect`, every
target-version selector and every switch); `load_dirset` does not write to
`d`.  For every switch bank `flg`, `store_dirset(d)` followed by
`load_dirset(d)` leaves `flg` unchanged.  (The arrays of `flg` and of a
directive set have the same bounds, so that each copy is the whole array.) -/
theorem C15_store_load_round_trip (flg : FLG) (d d1 : DIRSET) :
    store_dirset (load_dirset flg d) d1 = d ∧
    (store_dirset (load_dirset flg d) d1).depchk = d.depchk ∧
    (store_dirset (load_dirset flg d) d1).opt = d.opt ∧
    (store_dirset (load_dirset flg d) d1).vect = d.vect ∧
    (store_dirset (load_dirset flg d) d1).tpvalue = d.tpvalue ∧
    (store_dirset (load_dirset flg d) d1).x = d.x ∧
    load_dirset flg (store_dirset flg d) = flg :=
  ⟨rfl, rfl, rfl, rfl, rfl, rfl, rfl⟩

/-! ### `direct_fini` -/

/-- C18, counterexample.  After `direct_fini` and then `direct_rou_end` the
loop-record table is released (null) and `lpg.avail` is 1; a call of
`direct_fini` in that state leaves `lpg.avail` at 1, not 0. -/
theorem C18_fini_counterexample :
    (direct_rou_end (direct_fini direct_nested).1).lpg.stgb = none ∧
    (direct_rou_end (direct_fini direct_nested).1).lpg.avail = 1 ∧
    (direct_fini (direct_rou_end (direct_fini direct_nested).1)).1.lpg.avail = 1 := by
  decide

/-- C18, amended.  Idempotence of `direct_fini`: for every state, calling
`direct_fini` twice yields the same state as calling it once; after the
first call the three stores (directive table, loop-record table, loop stack)
are null, and each store that was not null on entry has been released with
its cursor/top and size set to 0, while the cursor/top and size of a store
that was already null are left as they were; the second call changes nothing
and releases nothing.  The directive sets and the flags are not touched. -/
theorem C18_fini_amended (direct : DIRECT) :
    direct_fini (direct_fini direct).1 = ((direct_fini direct).1, []) ∧
    (direct_fini direct).1.stgb = none ∧
    (direct_fini direct).1.lpg.stgb = none ∧
    (direct_fini direct).1.lpg_stk.stgb = none ∧
    (direct.stgb ≠ none →
      Storage.stgb ∈ (direct_fini direct).2 ∧
      (direct_fini direct).1.avail = 0 ∧ (direct_fini direct).1.size = 0) ∧
    (direct.lpg.stgb ≠ none →
      Storage.lpg ∈ (direct_fini direct).2 ∧
      (direct_fini direct).1.lpg.avail = 0 ∧ (direct_fini direct).1.lpg.size = 0) ∧
    (direct.lpg_stk.stgb ≠ none →
      Storage.lpg_stk ∈ (direct_fini direct).2 ∧
      (direct_fini direct).1.lpg_stk.top = 0 ∧ (direct_fini direct).1.lpg_stk.size = 0) ∧
    (direct.stgb = none →
      (direct_fini direct).1.avail = direct.avail ∧
      (direct_fini direct).1.size = direct.size) ∧
    (direct.lpg.stgb = none →
      (direct_fini direct).1.lpg.avail = direct.lpg.avail ∧
      (direct_fini direct).1.lpg.size = direct.lpg.size) ∧
    (direct.lpg_stk.stgb = none →
      (direct_fini direct).1.lpg_stk.top = direct.lpg_stk.top ∧
      (direct_fini direct).1.lpg_stk.size = direct.lpg_stk.size) ∧
    (direct_fini direct).1.gbl = direct.gbl ∧ (direct_fini direct).1.rou = direct.rou ∧
    (direct_fini direct).1.loop = direct.loop ∧
    (direct_fini direct).1.rou_begin = direct.rou_begin ∧
    (direct_fini direct).1.loop_flag = direct.loop_flag ∧
    (direct_fini direct).1.in_loop = direct.in_loop ∧
    (direct_fini direct).1.carry_fwd = direct.carry_fwd := by
  cases direct with
  | mk gbl rou loop rou_begin loop_flag in_loop carry_fwd avail size stgb lpg lpg_stk =>
    cases lpg with
    | mk lstgb lsize lavail =>
      cases lpg_stk with
      | mk sstgb ssize stop =>
        cases stgb <;> cases lstgb <;> cases sstgb <;> simp [direct_fini]

/-- Witness of C18 as amended: in `direct_nested` the loop-record table is
allocated; `direct_fini` releases it and sets its cursor and size to 0. -/
theorem C18_fini_amended_witness :
    direct_nested.lpg.stgb ≠ none ∧
    Storage.lpg ∈ (direct_fini direct_nested).2 ∧
    (direct_fini direct_nested).1.lpg.avail = 0 ∧
    (direct_fini direct_nested).1.lpg.size = 0 :=
  ⟨by decide, (C18_fini_amended direct_nested).2.2.2.2.2.1 (by decide)⟩

/-! ### Switch indices in `rd_dir` -/

/-- C19, counterexample.  For a bank of 128 switches the lines `x200:1 1`
and `x-1:1 1` are not rejected as malformed (`rd_dir` does not return 1 with
the target as it was): the `switch` reaches the store `x[idx] = v` outside
the bank.  The line `x200:0 1` is accepted, and `rd_dir` returns 0. -/
theorem C19_switch_index_counterexample :
    dirset_sample.x.length = 128 ∧
    sscanf "x200:1 1\n".toList "x%d:%x %x" = [200, 1, 1] ∧
    sscanf "x-1:1 1\n".toList "x%d:%x %x" = [-1, 1, 1] ∧
    rd_dir_switch ext_sample false dirset_sample "x200:1 1\n".toList = Flow.undef ∧
    rd_dir_switch ext_sample false dirset_sample "x-1:1 1\n".toList = Flow.undef ∧
    rd_dir ext_sample false dirset_sample 0 (fopen "x200:1 1\nz\n") = none ∧
    rd_dir ext_sample false dirset_sample 0 (fopen "x200:0 1\nz\n")
      = some ⟨0, dirset_sample, 2, []⟩ := by
  decide

/-- C19, amended.  Switch indices in `rd_dir`: there is no range check on
`idx`, and no `x<idx>:<mask> <value>` line whose three fields convert is
rejected as malformed.  With a mask of 0 the line is accepted and nothing is
stored, whatever `idx` is.  With a non-zero mask and `0 <= idx < N` (`N` the
number of entries of `DIRSET.x`) the line is applied: only `x[idx]` is
written and the bank keeps its size.  With a non-zero mask and `idx`
negative or `>= N` the store to `x[idx]` is outside the bank. -/
theorem C19_switch_index_amended (E : Ext) (is_rou_begin : Bool) (dd : DIRSET)
    (line : List Char) (idx m v : Int)
    (h0 : line0 line = 'x') (hs : sscanf line "x%d:%x %x" = [idx, m, v]) :
    (m = 0 → rd_dir_switch E is_rou_begin dd line = Flow.brk dd) ∧
    (m ≠ 0 → 0 ≤ idx ∧ idx < dd.x.length →
      ∃ w, rd_dir_switch E is_rou_begin dd line
        = Flow.brk { dd with x := dd.x.set idx.toNat w }) ∧
    (m ≠ 0 → ¬ (0 ≤ idx ∧ idx < dd.x.length) →
      rd_dir_switch E is_rou_begin dd line = Flow.undef ∧
      ∀ (n : Int) (rest : FILE), rd_dir E is_rou_begin dd n (line :: rest) = none) := by
  have hsw : rd_dir_switch E is_rou_begin dd line =
      if is_rou_begin then store_x dd idx m (ST_VAL m v)
      else if E.is_xflag_bit idx then store_x dd idx m (ST_BV m v)
      else store_x dd idx m (ST_VAL m v) := by
    unfold rd_dir_switch
    rw [h0, hs]
    simp
  refine ⟨?_, ?_, ?_⟩
  · intro hm
    rw [hsw]
    simp [store_x, hm]
  · intro hm hb
    obtain ⟨old, hold⟩ := get_at_of_lt dd.x idx hb.1 hb.2
    rw [hsw]
    simp only [store_x, ne_eq, hm, not_false_eq_true, if_true, hold]
    split
    · exact ⟨_, rfl⟩
    · split
      · exact ⟨_, rfl⟩
      · exact ⟨_, rfl⟩
  · intro hm hb
    have hnone : get_at dd.x idx = none := by
      unfold get_at
      split
      · rename_i hi
        apply List.get?_eq_none.mpr
        omega
      · rfl
    have hu : rd_dir_switch E is_rou_begin dd line = Flow.undef := by
      rw [hsw]
      simp only [store_x, ne_eq, hm, not_false_eq_true, if_true, hnone]
      split
      · rfl
      · split <;> rfl
    refine ⟨hu, fun n rest => ?_⟩
    rw [rd_dir, hu]

/-- Witness of C19 as amended: `x3:6 c` is applied inside the bank of
`dirset_sample`, `x200:1 1` stores outside it. -/
theorem C19_switch_index_amended_witness :
    (∃ w, rd_dir_switch ext_sample false dirset_sample "x3:6 c\n".toList
      = Flow.brk { dirset_sample with x := dirset_sample.x.set (3 : Int).toNat w }) ∧
    rd_dir_switch ext_sample false dirset_sample "x200:1 1\n".toList = Flow.undef :=
  ⟨(C19_switch_index_amended ext_sample false dirset_sample "x3:6 c\n".toList 3 6 12
      (by decide) (by decide)).2.1 (by decide) (by decide),
   ((C19_switch_index_amended ext_sample false dirset_sample "x200:1 1\n".toList 200 1 1
      (by decide) (by decide)).2.2 (by decide) (by decide)).1⟩

/-! ### Loop-stack reference validity -/

theorem entry_valid_congr (d d1 : DIRECT) (p : Int)
    (h1 : d1.lpg_stk.stgb = d.lpg_stk.stgb) (h2 : d1.lpg.avail = d.lpg.avail) :
    entry_valid d1 p = entry_valid d p := by
  unfold entry_valid
  rw [h1, h2]

theorem entry_valid_load (d : DIRECT) (p : Int) (h : entry_valid d p = true) :
    ∃ ent, load d.lpg_stk.stgb p = some ent ∧ 1 ≤ ent.dirx ∧ ent.dirx < d.lpg.avail := by
  unfold entry_valid at h
  split at h
  · rename_i ent he
    have := of_decide_eq_true h
    exact ⟨ent, he, this.1, this.2⟩
  · cases h

/-- The loop of `direct_import` leaves the loop stack and `in_loop` alone. -/
theorem import_loop_stack (E : Ext) :
    ∀ (k : Nat) (i : Int) (direct : DIRECT) (n : Int) (f : FILE) (r : Import),
      import_loop E k i direct n f = some r →
      r.direct.lpg_stk = direct.lpg_stk ∧ r.direct.in_loop = direct.in_loop := by
  intro k
  induction k with
  | zero =>
    intro i direct n f r h
    rw [import_loop] at h
    cases h
    exact ⟨rfl, rfl⟩
  | succ k ih =>
    intro i direct n f r h
    have triv : ∀ (m : Int) (g : FILE), some (Import.mk m true direct g) = some r →
        r.direct.lpg_stk = direct.lpg_stk ∧ r.direct.in_loop = direct.in_loop := by
      intro m g e
      cases e
      exact ⟨rfl, rfl⟩
    rw [import_loop] at h
    cases f with
    | nil => exact triv _ _ h
    | cons line f =>
      simp only [read_line] at h
      split at h
      · split at h
        · exact triv _ _ h
        · cases f with
          | nil => exact triv _ _ h
          | cons line2 f2 =>
            simp only at h
            split at h
            · exact triv _ _ h
            · split at h
              · cases h
              · split at h
                · split at h
                  · cases h
                  · cases h
                    exact ⟨rfl, rfl⟩
                · split at h
                  · cases h
                  · split at h
                    · cases h
                    · split at h
                      · cases h
                        exact ⟨rfl, rfl⟩
                      · have hh := ih _ _ _ _ _ h
                        exact hh
      · exact triv _ _ h

/-- The function `direct_import` leaves the loop stack and `in_loop` alone. -/
theorem direct_import_stack (E : Ext) (direct : DIRECT) (ff : FILE) (r : Import)
    (h : direct_import E direct ff = some r) :
    r.direct.lpg_stk = direct.lpg_stk ∧ r.direct.in_loop = direct.in_loop := by
  unfold direct_import at h
  cases ff with
  | nil =>
    simp only [read_line] at h
    cases h
    exact ⟨rfl, rfl⟩
  | cons line f =>
    simp only [read_line] at h
    split at h
    · split at h
      · cases h
      · cases f with
        | nil =>
          simp only at h
          cases h
          exact ⟨rfl, rfl⟩
        | cons line2 f2 =>
          simp only at h
          split at h
          · cases h
            exact ⟨rfl, rfl⟩
          · split at h
            · cases h
            · split at h
              · cases h
                exact ⟨rfl, rfl⟩
              · have hh := import_loop_stack E _ _ _ _ _ _ h
                exact hh
    · cases h
      exact ⟨rfl, rfl⟩

theorem load_some {α : Type} (p : Option (List α)) (i : Int) (a : α)
    (h : load p i = some a) : ∃ l, p = some l ∧ get_at l i = some a := by
  cases p with
  | none => cases h
  | some l => exact ⟨l, rfl, h⟩

/-- The function `direct_loop_end` keeps the loop-stack references valid,
and with valid references and a table that holds `lpg.avail` records it
makes no access outside the stack or the table. -/
theorem direct_loop_end_valid (E : Ext) (flg : FLG) (d : DIRECT) (b e : Int)
    (tbl : List LPPRG) (hv : stack_valid d) (htbl : d.lpg.stgb = some tbl)
    (hlen : d.lpg.avail ≤ tbl.length) :
    ∃ d1, direct_loop_end E flg d b e = some d1 ∧ stack_valid d1 := by
  cases hin : d.in_loop with
  | false =>
    refine ⟨d, ?_, hv⟩
    unfold direct_loop_end
    simp [hin]
  | true =>
    have htop : 1 ≤ d.lpg_stk.top := hv.1 hin
    have hcast : (((d.lpg_stk.top.toNat - 1 : Nat) : Int) + 1) = d.lpg_stk.top := by omega
    have hval := hv.2 (d.lpg_stk.top.toNat - 1) (by omega)
    rw [hcast] at hval
    obtain ⟨ent, hent0, he1, he2⟩ := entry_valid_load d _ hval
    obtain ⟨stk, hstk, hent⟩ := load_some _ _ _ hent0
    obtain ⟨lp, hlp⟩ := get_at_of_lt tbl ent.dirx (by omega) (by omega)
    by_cases hb : lp.beg_line = b
    · by_cases ht : d.lpg_stk.top - 1 = 0
      · have hcalc : direct_loop_end E flg d b e =
            some { d with
              lpg_stk := { d.lpg_stk with top := d.lpg_stk.top - 1 }
              lpg := { d.lpg with
                stgb := some (tbl.set ent.dirx.toNat { lp with end_line := e }) }
              loop := d.rou
              loop_flag := false
              in_loop := false } := by
          unfold direct_loop_end
          simp only [hin, Bool.not_true, hstk, htbl, load, hent, hlp, hb, store,
            set_at_of_get_at tbl ent.dirx lp _ hlp, ht]
          simp
        refine ⟨_, hcalc, ?_⟩
        constructor
        · intro h
          cases h
        · intro k hk
          simp only [ht] at hk
          simp at hk
      · have hcast2 : (((d.lpg_stk.top.toNat - 2 : Nat) : Int) + 1) = d.lpg_stk.top - 1 := by
          omega
        have hval2 := hv.2 (d.lpg_stk.top.toNat - 2) (by omega)
        rw [hcast2] at hval2
        obtain ⟨ent1, hent10, hf1, hf2⟩ := entry_valid_load d _ hval2
        rw [hstk] at hent10
        have hent1 : get_at stk (d.lpg_stk.top - 1) = some ent1 := hent10
        obtain ⟨par, hpar⟩ := get_at_of_lt tbl ent1.dirx (by omega) (by omega)
        subst hb
        obtain ⟨par1, hpar1, -⟩ := get_at_set_dirset tbl ent.dirx ent1.dirx lp par e hlp hpar
        have hcalc : direct_loop_end E flg d lp.beg_line e =
            some { d with
              lpg_stk := { d.lpg_stk with top := d.lpg_stk.top - 1 }
              lpg := { d.lpg with
                stgb := some (tbl.set ent.dirx.toNat { lp with end_line := e }) }
              loop := if E.XBIT flg 59 1 ≠ 0 then par1.dirset
                      else { d.rou with depchk := par1.dirset.depchk } } := by
          unfold direct_loop_end
          simp only [hin, Bool.not_true, hstk, htbl, load, hent, hlp, store,
            set_at_of_get_at tbl ent.dirx lp _ hlp, top_dirset, hent1, hpar1, ht]
          by_cases hx : E.XBIT flg 59 1 = 0 <;> simp [hx, hin]
        refine ⟨_, hcalc, ?_⟩
        constructor
        · intro _
          show 1 ≤ d.lpg_stk.top - 1
          omega
        · intro k hk
          have hk2 : k < d.lpg_stk.top.toNat := by
            have : k < (d.lpg_stk.top - 1).toNat := hk
            omega
          exact (entry_valid_congr d _ _ rfl rfl).trans (hv.2 k hk2)
    · refine ⟨d, ?_, hv⟩
      unfold direct_loop_end
      simp [hin, hstk, hent, htbl, load, hlp, hb]

/-- C20, counterexample.  In `direct_single` one loop is open and its stack
entry references record 1 with `lpg.avail` equal to 3, so the references are
valid.  After `direct_rou_end`, and after the successful `direct_import` of
the stream `A:1`, `r`, `z`, `lpg.avail` is 1 and the entry still references
record 1: the references are no longer valid. -/
theorem C20_stack_validity_counterexample :
    stack_valid direct_single ∧
    ¬ stack_valid (direct_rou_end direct_single) ∧
    (direct_import ext_sample direct_single (fopen "A:1\nr\nz\n")).map
        (fun r => (r.err, r.direct.lpg.avail, decide (stack_valid r.direct)))
      = some (false, 1, false) := by
  decide

/-- C20, amended.  Loop-stack reference validity (every entry at the
positions `1..top` references a record index `i` with `1 <= i < lpg.avail`,
and `in_loop` implies `top >= 1`): `direct_init` establishes it;
`direct_loop_end` preserves it for every argument, and with it (the table
holding `lpg.avail` records) dereferences only entries and records that
exist; `direct_rou_end` and `direct_import` do not touch the loop stack or
`in_loop` while they set `lpg.avail` anew, and they preserve it when the
loop stack is empty (`top == 0`).  The last two parts state that the loop
stack and `in_loop` are untouched for every state, whatever `top` is. -/
theorem C20_stack_validity_amended (E : Ext) :
    (∀ (junk_d : Nat → DIRSET) (junk_s : Nat → LPG_STK) (flg flg1 : FLG) (direct d : DIRECT),
      direct_init E junk_d junk_s flg direct = some (flg1, d) → stack_valid d) ∧
    (∀ (flg : FLG) (d : DIRECT) (b e : Int) (tbl : List LPPRG),
      stack_valid d → d.lpg.stgb = some tbl → d.lpg.avail ≤ tbl.length →
      ∃ d1, direct_loop_end E flg d b e = some d1 ∧ stack_valid d1) ∧
    (∀ d : DIRECT, stack_valid d → d.lpg_stk.top = 0 →
      (direct_rou_end d).lpg_stk = d.lpg_stk ∧ (direct_rou_end d).in_loop = d.in_loop ∧
      stack_valid (direct_rou_end d)) ∧
    (∀ (d : DIRECT) (ff : FILE) (r : Import),
      stack_valid d → d.lpg_stk.top = 0 → direct_import E d ff = some r →
      r.direct.lpg_stk = d.lpg_stk ∧ r.direct.in_loop = d.in_loop ∧
      stack_valid r.direct) ∧
    (∀ d : DIRECT,
      (direct_rou_end d).lpg_stk = d.lpg_stk ∧ (direct_rou_end d).in_loop = d.in_loop ∧
      (direct_rou_end d).lpg.avail = 1) ∧
    (∀ (d : DIRECT) (ff : FILE) (r : Import), direct_import E d ff = some r →
      r.direct.lpg_stk = d.lpg_stk ∧ r.direct.in_loop = d.in_loop) := by
  have empty_valid : ∀ d d1 : DIRECT, stack_valid d → d.lpg_stk.top = 0 →
      d1.lpg_stk = d.lpg_stk → d1.in_loop = d.in_loop → stack_valid d1 := by
    intro d d1 hv ht h1 h2
    constructor
    · intro h
      rw [h2] at h
      have := hv.1 h
      omega
    · intro k hk
      rw [h1, ht] at hk
      simp at hk
  refine ⟨?_, ?_, ?_, ?_, ?_, ?_⟩
  · intro junk_d junk_s flg flg1 direct d h
    unfold direct_init at h
    split at h
    · cases h
    · cases h
      constructor
      · intro hc
        cases hc
      · intro k hk
        simp at hk
  · intro flg d b e tbl hv htbl hlen
    exact direct_loop_end_valid E flg d b e tbl hv htbl hlen
  · intro d hv ht
    exact ⟨rfl, rfl, empty_valid d _ hv ht rfl rfl⟩
  · intro d ff r hv ht h
    obtain ⟨h1, h2⟩ := direct_import_stack E d ff r h
    exact ⟨h1, h2, empty_valid d _ hv ht h1 h2⟩
  · intro d
    exact ⟨rfl, rfl, rfl⟩
  · intro d ff r h
    exact direct_import_stack E d ff r h

/-- Witness of C20 as amended: leaving the inner loop of `direct_nested`
keeps the references valid; so does `direct_rou_end` in `direct_idle`, where
no loop is open. -/
theorem C20_stack_validity_amended_witness :
    stack_valid direct_nested ∧
    (∃ d1, direct_loop_end ext_sample flg_sample direct_nested 20 30 = some d1 ∧
      stack_valid d1) ∧
    stack_valid direct_idle ∧ direct_idle.lpg_stk.top = 0 ∧
    stack_valid (direct_rou_end direct_idle) :=
  ⟨by decide,
   (C20_stack_validity_amended ext_sample).2.1 flg_sample direct_nested 20 30
     [lpprg_zero,
      { beg_line := 10, end_line := -1, dirset := { dirset_sample with opt := 1, depchk := 0 } },
      { beg_line := 20, end_line := -1, dirset := { dirset_sample with opt := 0, vect := 5 } },
      lpprg_zero]
     (by decide) rfl (by decide),
   by decide, rfl,
   ((C20_stack_validity_amended ext_sample).2.2.1 direct_idle (by decide) rfl).2.2⟩

/-! ### The action map -/

theorem filterMap_range_get (l : List action_t) :
    (List.range l.length).filterMap (fun index => l.get? index) = l := by
  induction l with
  | nil => rfl
  | cons a l ih =>
    rw [List.length_cons, List.range_succ_eq_map, List.filterMap_cons]
    simp only [List.get?_cons_zero, List.filterMap_map]
    congr 1

theorem execute_eq_lookup (map : action_map_t) (k : String) :
    execute_actions_for_keyword map k = (hashmap_lookup map.actions k).getD [] := by
  unfold execute_actions_for_keyword
  cases hashmap_lookup map.actions k with
  | none => rfl
  | some l => exact filterMap_range_get l

theorem lookup_add_action (map : action_map_t) (k k1 : String) (a : action_t) :
    (hashmap_lookup (add_action map k a).actions k1).getD [] =
      if k = k1 then (hashmap_lookup map.actions k1).getD [] ++ [a]
      else (hashmap_lookup map.actions k1).getD [] := by
  unfold add_action
  by_cases hk : k = k1
  · subst hk
    cases h : hashmap_lookup map.actions k <;> simp [hashmap_lookup, hashmap_insert]
  · have hk1 : ¬ k1 = k := fun e => hk e.symm
    cases h : hashmap_lookup map.actions k <;> simp [hashmap_lookup, hashmap_insert, hk, hk1]

theorem lookup_foldl_add_action (k : String) :
    ∀ (regs : List (String × action_t)) (m0 : action_map_t),
      (hashmap_lookup (regs.foldl (fun m p => add_action m p.1 p.2) m0).actions k).getD [] =
        (hashmap_lookup m0.actions k).getD [] ++
          (regs.filter (fun p => decide (p.1 = k))).map (fun p => p.2) := by
  intro regs
  induction regs with
  | nil => intro m0; simp
  | cons p regs ih =>
    intro m0
    rw [List.foldl_cons, ih, lookup_add_action]
    by_cases hp : p.1 = k
    · simp [hp]
    · simp [hp]

/-- Where `copy_action` stays inside the storage it allocates, it does what
is said of it: without an entry for `kf` in `from` nothing changes; otherwise
the list of `kt` in `to` becomes the list of `kf` in `from`, the other
keywords of `to` and the whole of `from` being unchanged. -/
theorem copy_action_result (sz : Sizes) (from_map to_map : action_map_t) (kf kt : String) :
    (hashmap_lookup from_map.actions kf = none →
      copy_action sz from_map kf to_map kt = some (from_map, to_map)) ∧
    (∀ l r, hashmap_lookup from_map.actions kf = some l →
      copy_action sz from_map kf to_map kt = some r →
      hashmap_lookup r.2.actions kt = some l ∧
      (∀ k, k ≠ kt → hashmap_lookup r.2.actions k = hashmap_lookup to_map.actions k) ∧
      r.1 = from_map) := by
  constructor
  · intro h
    unfold copy_action
    rw [h]
  · intro l r h hr
    unfold copy_action at hr
    rw [h] at hr
    cases ht : hashmap_lookup to_map.actions kt with
    | none =>
      rw [ht] at hr
      simp only at hr
      split at hr
      · cases hr
      · cases hr
        refine ⟨by simp [hashmap_lookup, hashmap_insert], fun k hk => ?_, rfl⟩
        simp [hashmap_lookup, hashmap_insert, hk]
    | some l0 =>
      rw [ht] at hr
      cases hr
      refine ⟨by simp [hashmap_lookup, hashmap_insert], fun k hk => ?_, rfl⟩
      simp [hashmap_lookup, hashmap_insert, hk]

/-- C16. The code at the failing input: when `from` has an entry for `kf`,
`to` has none for `kt`, and `action_map_t` is smaller than `action_list_t`,
`copy_action` writes the new record beyond the `sizeof(action_map_t)` bytes
it allocated for it, and no resulting map is defined; `add_action`, creating
a record for the same keyword, succeeds. -/
theorem C16_copy_action_new_record (sz : Sizes) (from_map to_map : action_map_t)
    (kf kt : String) (l : action_list_t) (a : action_t)
    (hsz : sz.sizeof_action_map_t < sz.sizeof_action_list_t)
    (hf : hashmap_lookup from_map.actions kf = some l)
    (ht : hashmap_lookup to_map.actions kt = none) :
    copy_action sz from_map kf to_map kt = none ∧
    hashmap_lookup (add_action to_map kt a).actions kt = some [a] := by
  constructor
  · unfold copy_action
    rw [hf, ht]
    simp [hsz]
  · unfold add_action
    rw [ht]
    simp [hashmap_lookup, hashmap_insert]

/-- Witness of C16: with 8-byte pointers, copying the list of `a` to the
keyword `b` of a new map. -/
theorem C16_copy_action_new_record_witness :
    copy_action sizes_lp64 (add_action (add_action create_action_map "a" 1) "a" 2) "a"
        create_action_map "b" = none ∧
    hashmap_lookup (add_action create_action_map "b" 0).actions "b" = some [0] :=
  C16_copy_action_new_record sizes_lp64 (add_action (add_action create_action_map "a" 1) "a" 2)
    create_action_map "a" "b" [1, 2] 0 (by decide) (by decide) (by decide)

/-- C17. Ordering of `add_action` and `execute_actions_for_keyword`: after
`add_action(map, k, a)` the action list of `k` is its previous list (empty
if `k` had no entry) with `a` appended at the end, and the lists of all
other keywords are unchanged; so, after any sequence of registrations on a
new map, `execute_actions_for_keyword(map, k)` calls exactly the actions
registered under `k`, each as many times as it was registered, in
registration order, and it calls nothing when `k` has no entry. -/
theorem C17_add_execute (map : action_map_t) (k : String) (a : action_t)
    (regs : List (String × action_t)) :
    hashmap_lookup (add_action map k a).actions k
      = some ((hashmap_lookup map.actions k).getD [] ++ [a]) ∧
    (∀ k1, k1 ≠ k →
      hashmap_lookup (add_action map k a).actions k1 = hashmap_lookup map.actions k1) ∧
    execute_actions_for_keyword (add_action map k a) k
      = execute_actions_for_keyword map k ++ [a] ∧
    execute_actions_for_keyword
        (regs.foldl (fun m p => add_action m p.1 p.2) create_action_map) k
      = (regs.filter (fun p => decide (p.1 = k))).map (fun p => p.2) ∧
    (hashmap_lookup map.actions k = none → execute_actions_for_keyword map k = []) := by
  refine ⟨?_, ?_, ?_, ?_, ?_⟩
  · unfold add_action
    cases h : hashmap_lookup map.actions k <;> simp [hashmap_lookup, hashmap_insert]
  · intro k1 hk
    unfold add_action
    cases h : hashmap_lookup map.actions k <;> simp [hashmap_lookup, hashmap_insert, hk]
  · rw [execute_eq_lookup, execute_eq_lookup, lookup_add_action]
    simp
  · rw [execute_eq_lookup, lookup_foldl_add_action]
    simp [create_action_map, hashmap_lookup]
  · intro h
    rw [execute_eq_lookup, h]
    rfl

/-- Witness of C17: with 5 and 3 registered under `a`, 8 under `b`, then 5
again under `a`, the calls for `a` are 5, 3, 5; none are made for `c`. -/
theorem C17_add_execute_witness :
    execute_actions_for_keyword
        ([("a", 5), ("a", 3), ("b", 8), ("a", 5)].foldl (fun m p => add_action m p.1 p.2)
          create_action_map) "a" = [5, 3, 5] ∧
    execute_actions_for_keyword create_action_map "c" = [] :=
  ⟨((C17_add_execute create_action_map "a" 0
      [("a", 5), ("a", 3), ("b", 8), ("a", 5)]).2.2.2.1).trans (by decide),
   (C17_add_execute create_action_map "c" 0 []).2.2.2.2 rfl⟩

end Direct


